import Mathlib

/-!
Verification development for the 2048 fork (cheycron/2048): a shallow
embedding of the game engine (`src/js/game_manager.js`), the event bus
(`src/js/event_bus.js`) and the visual-effects progression / particle-cap
logic (`VisualEffectsManager`), together with theorems about the claims
of the specification.

The grid size is fixed to 4: the application instantiates
`new GameManager(4, ...)` (bootstrap file).

`grid.js` and `tile.js` are not among the provided sources; the Grid and
Tile cell operations below are modelled from the spec (sections 3 and 4.2)
and are each marked `Modelled from the spec:` in their doc comment.  All
game-engine control flow (the move algorithm, events, scoring) is
translated from `src/js/game_manager.js`.
-/

namespace Game2048

/-- Grid size; the app constructs `GameManager(4, ...)`. -/
def size : Nat := 4

/-- A cell position `{x, y}`; JS numbers used as integer coordinates. -/
structure Pos where
  x : Int
  y : Int
deriving DecidableEq, Repr

/-- Modelled from the spec: a Tile (tile.js is not in src) has a value,
a current position `(x, y)`, a previous position saved for animation, and a
merge-source pair set when the tile was produced by a merge this move.
The source stores the two source Tile objects in `mergedFrom`; the model
keeps each source's position and value, which is the data the game logic
and the claims observe (the game logic itself only tests `mergedFrom` for
null-ness). -/
structure Tile where
  x : Int
  y : Int
  value : Nat
  previousPosition : Option Pos
  mergedFrom : Option ((Pos × Nat) × (Pos × Nat))
deriving DecidableEq, Repr

/-- Modelled from the spec: `Tile.updatePosition` sets the tile's current
coordinates. -/
def updatePosition (t : Tile) (p : Pos) : Tile :=
  { t with x := p.x, y := p.y }

/-- Modelled from the spec: `Tile.savePosition` records the current position
as the previous position (used for animation). -/
def savePosition (t : Tile) : Tile :=
  { t with previousPosition := some ⟨t.x, t.y⟩ }

/-- Modelled from the spec: the Grid owns a 4×4 array of optional tiles,
`cells[x][y]`.  Represented as a total function on positions; only
positions within bounds are ever read through `cellContent` or written by
the operations below. -/
structure Grid where
  cells : Pos → Option Tile

/-- Modelled from the spec: `Grid.withinBounds` — cell coordinates are
always within `[0, N)`. -/
def withinBounds (p : Pos) : Bool :=
  decide (0 ≤ p.x ∧ p.x < (size : Int) ∧ 0 ≤ p.y ∧ p.y < (size : Int))

/-- Modelled from the spec: `Grid.cellContent` returns the tile at a
within-bounds cell, and null otherwise. -/
def cellContent (g : Grid) (p : Pos) : Option Tile :=
  if withinBounds p then g.cells p else none

/-- Point update of the cells array (`this.cells[p.x][p.y] = v`). -/
def Grid.setCell (g : Grid) (p : Pos) (v : Option Tile) : Grid :=
  ⟨fun q => if q = p then v else g.cells q⟩

/-- Modelled from the spec: `Grid.insertTile` stores a tile at its own
coordinates. -/
def insertTile (g : Grid) (t : Tile) : Grid :=
  g.setCell ⟨t.x, t.y⟩ (some t)

/-- Modelled from the spec: `Grid.removeTile` clears the cell at the
tile's coordinates. -/
def removeTile (g : Grid) (t : Tile) : Grid :=
  g.setCell ⟨t.x, t.y⟩ none

/-- The 16 board positions in `eachCell` order (`x` outer, `y` inner). -/
def allPositions : List Pos :=
  [⟨0, 0⟩, ⟨0, 1⟩, ⟨0, 2⟩, ⟨0, 3⟩,
   ⟨1, 0⟩, ⟨1, 1⟩, ⟨1, 2⟩, ⟨1, 3⟩,
   ⟨2, 0⟩, ⟨2, 1⟩, ⟨2, 2⟩, ⟨2, 3⟩,
   ⟨3, 0⟩, ⟨3, 1⟩, ⟨3, 2⟩, ⟨3, 3⟩]

/-- Modelled from the spec: `Grid.availableCells` collects the empty
within-bounds cells, in `eachCell` order. -/
def availableCells (g : Grid) : List Pos :=
  allPositions.filter (fun p => (g.cells p).isNone)

/-- Modelled from the spec: `Grid.cellAvailable` — the cell holds no tile. -/
def cellAvailable (g : Grid) (p : Pos) : Bool :=
  (cellContent g p).isNone

/-- Modelled from the spec: `Grid.cellsAvailable` — some cell is empty. -/
def cellsAvailable (g : Grid) : Bool :=
  !(availableCells g).isEmpty

/-- Modelled from the spec: `Grid.randomAvailableCell` picks a uniformly
random member of `availableCells`; the random draw is threaded in as the
parameter `r` (the source computes `Math.floor(Math.random() * length)`,
a uniform index, modelled as `r % length`). -/
def randomAvailableCell (g : Grid) (r : Nat) : Option Pos :=
  let cs := availableCells g
  cs[r % cs.length]?

/-- Number of occupied board cells. -/
def tileCount (g : Grid) : Nat :=
  allPositions.countP (fun p => (g.cells p).isSome)

/-- The observable content of the board: the tile value (if any) at each
board position, in `eachCell` order. -/
def gridValues (g : Grid) : List (Option Nat) :=
  allPositions.map (fun p => (cellContent g p).map Tile.value)

/-- Each stored tile's coordinates agree with the cell holding it
(the source maintains this by construction: `insertTile` stores a tile at
its own coordinates). -/
def gridConsistent (g : Grid) : Prop :=
  ∀ p ∈ allPositions, ∀ t : Tile, g.cells p = some t → t.x = p.x ∧ t.y = p.y

instance (g : Grid) : Decidable (gridConsistent g) := by
  unfold gridConsistent
  infer_instance

/-- The discrete events emitted through the event bus by the game manager
during `move` (game_manager.js): `game:milestone`, `game:won`, `game:over`,
`game:move`, `game:merge`, and the `game:progression` update emitted by
`actuate`. -/
inductive Event where
  | milestone (value : Nat)
  | won
  | over
  | move (direction : Nat)
  | merge (value : Nat)
  | progression (sum maxTile score : Nat)
deriving DecidableEq, Repr

/-- Ghost record of one merge performed during a move: the target cell, the
two source tiles' values, the merged value, and whether either source tile
already carried a merge-source pair (was itself produced by a merge this
move) at the time the merge was made. -/
structure MergeRec where
  target : Pos
  tileValue : Nat
  nextValue : Nat
  mergedValue : Nat
  moverHadMerged : Bool
  targetHadMerged : Bool
deriving DecidableEq, Repr

/-- `GameManager.prototype.getVector` (game_manager.js lines 321-330);
directions are 0: up, 1: right, 2: down, 3: left. -/
def getVector (direction : Nat) : Pos :=
  match direction with
  | 0 => ⟨0, -1⟩
  | 1 => ⟨1, 0⟩
  | 2 => ⟨0, 1⟩
  | _ => ⟨-1, 0⟩

/-- `GameManager.prototype.buildTraversals` (lines 337-350). -/
def buildTraversals (v : Pos) : List Nat × List Nat :=
  let base := List.range size
  (if v.x = 1 then base.reverse else base,
   if v.y = 1 then base.reverse else base)

/-- The nested `traversals.x.forEach / traversals.y.forEach` order of the
move loop (lines 241-242), flattened into one list of cells. -/
def traversalCells (v : Pos) : List Pos :=
  (buildTraversals v).1.foldr
    (fun x acc => ((buildTraversals v).2.map fun y => (⟨x, y⟩ : Pos)) ++ acc) []

/-- The do-while loop of `findFarthestPosition` (lines 358-372).  The
source loop terminates because each step moves one cell and the grid is
bounded; the model uses a step budget of `size` which the loop can never
exhaust from a within-bounds start. -/
def findFarthestAux (g : Grid) (v : Pos) : Nat → Pos → Pos × Pos
  | 0, previous => (previous, ⟨previous.x + v.x, previous.y + v.y⟩)
  | fuel + 1, previous =>
    let cell : Pos := ⟨previous.x + v.x, previous.y + v.y⟩
    if withinBounds cell && cellAvailable g cell then
      findFarthestAux g v fuel cell
    else
      (previous, cell)

/-- `GameManager.prototype.findFarthestPosition`: returns
`(farthest, next)`. -/
def findFarthestPosition (g : Grid) (cell : Pos) (v : Pos) : Pos × Pos :=
  findFarthestAux g v size cell

/-- `GameManager.prototype.positionsEqual` (lines 419-421). -/
def positionsEqual (a b : Pos) : Bool :=
  a.x == b.x && a.y == b.y

/-- `GameManager.prototype.prepareTiles` (lines 195-202): clear each
tile's merge-source pair and save its position. -/
def prepareTiles (g : Grid) : Grid :=
  ⟨fun p =>
    if withinBounds p then
      (g.cells p).map (fun t => savePosition { t with mergedFrom := none })
    else g.cells p⟩

/-- `GameManager.prototype.moveTile` (lines 209-213): clear the tile's old
cell, store it at the destination, update its position.  Returns the grid
and the relocated tile (the source mutates the shared tile object). -/
def moveTile (g : Grid) (t : Tile) (c : Pos) : Grid × Tile :=
  let g1 := g.setCell ⟨t.x, t.y⟩ none
  let t1 := updatePosition t c
  (g1.setCell c (some t1), t1)

/-- Accumulator of the traversal loop inside `move` (lines 229-291):
the mutable grid, score, won flag, `moved` flag, `maxMergeValue`, the
events emitted so far, and a ghost log of the merges performed. -/
structure MoveAcc where
  grid : Grid
  score : Nat
  won : Bool
  moved : Bool
  maxMergeValue : Nat
  events : List Event
  mergeLog : List MergeRec

/-- The `else` branch of the merge test (line 283): relocate the tile to
its farthest reachable cell and update the `moved` flag (lines 286-288). -/
def processSlide (acc : MoveAcc) (cell farthest : Pos) (tile : Tile) : MoveAcc :=
  let pair := moveTile acc.grid tile farthest
  let moved1 := if positionsEqual cell ⟨pair.2.x, pair.2.y⟩ then acc.moved else true
  { acc with grid := pair.1, moved := moved1 }

/-- The merged tile created at line 252-253: `new Tile(positions.next,
tile.value * 2)` with its merge-source pair recorded. -/
def mergedTile (nextPos : Pos) (tile next : Tile) : Tile :=
  { x := nextPos.x, y := nextPos.y, value := tile.value * 2,
    previousPosition := none,
    mergedFrom := some ((⟨tile.x, tile.y⟩, tile.value),
                        (⟨next.x, next.y⟩, next.value)) }

/-- The merge branch of the traversal loop (lines 251-281): insert the
merged tile, remove the moving tile, converge its position, add the merged
value to the score, update `maxMergeValue`, emit the milestone event
(value ≥ 64) and the win event (value = 2048), and update `moved`. -/
def processMerge (acc : MoveAcc) (cell nextPos : Pos) (tile next : Tile) : MoveAcc :=
  let merged := mergedTile nextPos tile next
  let g1 := insertTile acc.grid merged
  let g2 := removeTile g1 tile
  let tile1 := updatePosition tile nextPos
  let score1 := acc.score + merged.value
  let mm := if merged.value > acc.maxMergeValue then merged.value else acc.maxMergeValue
  let ev1 := if 64 ≤ merged.value then acc.events ++ [Event.milestone merged.value]
             else acc.events
  let won1 := if merged.value = 2048 then true else acc.won
  let ev2 := if merged.value = 2048 then ev1 ++ [Event.won] else ev1
  let moved1 := if positionsEqual cell ⟨tile1.x, tile1.y⟩ then acc.moved else true
  { grid := g2, score := score1, won := won1, moved := moved1,
    maxMergeValue := mm, events := ev2,
    mergeLog := acc.mergeLog ++
      [⟨nextPos, tile.value, next.value, merged.value,
        tile.mergedFrom.isSome, next.mergedFrom.isSome⟩] }

/-- The body of the traversal loop for one cell (lines 243-289); the merge
guard is line 251: `next && next.value === tile.value && !next.mergedFrom`. -/
def processCell (v : Pos) (acc : MoveAcc) (cell : Pos) : MoveAcc :=
  match cellContent acc.grid cell with
  | none => acc
  | some tile =>
    let positions := findFarthestPosition acc.grid cell v
    match cellContent acc.grid positions.2 with
    | some next =>
      if next.value == tile.value && next.mergedFrom.isNone then
        processMerge acc cell positions.2 tile next
      else
        processSlide acc cell positions.1 tile
    | none =>
      processSlide acc cell positions.1 tile

/-- The whole traversal loop of `move`, starting from the prepared grid and
the manager's current score and won flag. -/
def runTraversal (g : Grid) (score : Nat) (won : Bool) (direction : Nat) : MoveAcc :=
  let v := getVector direction
  (traversalCells v).foldl (processCell v)
    { grid := g, score := score, won := won, moved := false,
      maxMergeValue := 0, events := [], mergeLog := [] }

/-- `GameManager.prototype.addRandomTile` (lines 112-119): value 2 with
probability 0.9 else 4 (the draw is the parameter `two`), inserted at a
random available cell (index draw `r`). -/
def addRandomTile (g : Grid) (r : Nat) (two : Bool) : Grid :=
  if cellsAvailable g then
    match randomAvailableCell g r with
    | some p => insertTile g ⟨p.x, p.y, if two then 2 else 4, none, none⟩
    | none => g
  else g

/-- `GameManager.prototype.tileMatchesAvailable` (lines 386-411). -/
def tileMatchesAvailable (g : Grid) : Bool :=
  allPositions.any fun p =>
    match cellContent g p with
    | none => false
    | some t =>
      (List.range 4).any fun d =>
        let v := getVector d
        match cellContent g ⟨p.x + v.x, p.y + v.y⟩ with
        | some other => other.value == t.value
        | none => false

/-- `GameManager.prototype.movesAvailable` (lines 378-380). -/
def movesAvailable (g : Grid) : Bool :=
  cellsAvailable g || tileMatchesAvailable g

/-- The game-manager state together with the externally persisted data
(the storage manager's snapshot and best score, spec section 6). -/
structure Manager where
  grid : Grid
  score : Nat
  over : Bool
  won : Bool
  keepPlaying : Bool
  storedState : Option (List (List (Option (Int × Int × Nat))) × Nat × Bool × Bool × Bool)
  bestScore : Nat

/-- `GameManager.prototype.isGameTerminated` (lines 67-69). -/
def isGameTerminated (m : Manager) : Bool :=
  m.over || (m.won && !m.keepPlaying)

/-- `GameManager.prototype.getTileSum` (lines 125-135): `(sum, maxTile)`. -/
def getTileSum (g : Grid) : Nat × Nat :=
  allPositions.foldl
    (fun sm p =>
      match cellContent g p with
      | some t => (sm.1 + t.value, if t.value > sm.2 then t.value else sm.2)
      | none => sm)
    (0, 0)

/-- `GameManager.prototype.serialize` (lines 182-190); the grid part is
`Grid.serialize` (modelled from the spec: cell values and positions). -/
def serialize (m : Manager) : List (List (Option (Int × Int × Nat))) × Nat × Bool × Bool × Bool :=
  ((List.range size).map fun x =>
     (List.range size).map fun y =>
       (cellContent m.grid ⟨x, y⟩).map fun t => (t.x, t.y, t.value),
   m.score, m.over, m.won, m.keepPlaying)

/-- `GameManager.prototype.actuate` (lines 140-176): update the best score,
persist (or on game over clear) the snapshot, and emit the
`game:progression` event.  The HTML actuator call is external. -/
def actuate (m : Manager) : Manager × List Event :=
  let best := if m.bestScore < m.score then m.score else m.bestScore
  let stored := if m.over then none else some (serialize m)
  let ts := getTileSum m.grid
  ({ m with bestScore := best, storedState := stored },
   [Event.progression ts.1 ts.2 m.score])

/-- `GameManager.prototype.move` (lines 219-314).  The random draws of
`addRandomTile` are the parameters `r` and `two`.  Returns the new manager
state and the list of events emitted through the bus, in emission order. -/
def moveFn (m : Manager) (direction : Nat) (r : Nat) (two : Bool) : Manager × List Event :=
  if isGameTerminated m then (m, [])
  else
    let acc := runTraversal (prepareTiles m.grid) m.score m.won direction
    if acc.moved then
      let g1 := addRandomTile acc.grid r two
      let over1 := !movesAvailable g1
      let m1 : Manager :=
        { m with grid := g1, score := acc.score, won := acc.won, over := over1 }
      let actEv := actuate m1
      (actEv.1,
       acc.events ++ (if over1 then [Event.over] else [])
         ++ [Event.move direction]
         ++ (if acc.maxMergeValue > 0 then [Event.merge acc.maxMergeValue] else [])
         ++ actEv.2)
    else
      ({ m with grid := acc.grid, score := acc.score, won := acc.won }, acc.events)

end Game2048

namespace Game2048

/-! ### Basic grid lemmas -/

theorem setCell_cells (g : Grid) (p : Pos) (v : Option Tile) (q : Pos) :
    (g.setCell p v).cells q = if q = p then v else g.cells q := rfl

theorem allPositions_nodup : allPositions.Nodup := by decide

theorem allPositions_length : allPositions.length = 16 := by decide

theorem withinBounds_of_mem {p : Pos} (hp : p ∈ allPositions) : withinBounds p = true := by
  fin_cases hp <;> decide

theorem mem_allPositions {p : Pos} (hp : withinBounds p = true) : p ∈ allPositions := by
  rw [withinBounds, decide_eq_true_eq] at hp
  obtain ⟨x, y⟩ := p
  obtain ⟨h1, h2, h3, h4⟩ := hp
  simp only at h1 h2 h3 h4
  have hx2 : x < 4 := by simpa [size] using h2
  have hy2 : y < 4 := by simpa [size] using h4
  interval_cases x <;> interval_cases y <;> simp [allPositions]

theorem countP_update (l : List Pos) (hnd : l.Nodup) (p : Pos) (hp : p ∈ l)
    (f f' : Pos → Bool) (hff : ∀ q ∈ l, q ≠ p → f q = f' q) :
    l.countP f' + (if f p then 1 else 0) = l.countP f + (if f' p then 1 else 0) := by
  induction l with
  | nil => cases hp
  | cons a t ih =>
    rw [List.countP_cons, List.countP_cons]
    rcases List.mem_cons.mp hp with rfl | hpt
    · have ht : ∀ q ∈ t, f q = f' q := by
        intro q hq
        exact hff q (List.mem_cons_of_mem _ hq) (fun h => (List.nodup_cons.mp hnd).1 (h ▸ hq))
      have : t.countP f' = t.countP f := List.countP_congr (fun q hq => by rw [ht q hq])
      omega
    · have hap : a ≠ p := fun h => (List.nodup_cons.mp hnd).1 (h ▸ hpt)
      have ha : f a = f' a := hff a (List.mem_cons_self a t) hap
      have := ih (List.nodup_cons.mp hnd).2 hpt
        (fun q hq hqp => hff q (List.mem_cons_of_mem _ hq) hqp)
      rw [ha]
      omega

theorem tileCount_setCell (g : Grid) (p : Pos) (v : Option Tile) (hp : p ∈ allPositions) :
    tileCount (g.setCell p v) + (if (g.cells p).isSome then 1 else 0)
      = tileCount g + (if v.isSome then 1 else 0) := by
  have := countP_update allPositions allPositions_nodup p hp
    (fun q => (g.cells q).isSome) (fun q => ((g.setCell p v).cells q).isSome)
    (fun q _ hq => by simp [setCell_cells, hq])
  have hpv : ((g.setCell p v).cells p).isSome = v.isSome := by simp [setCell_cells]
  simp only at this
  simp only [hpv] at this
  exact this

theorem tileCount_le (g : Grid) : tileCount g ≤ 16 := by
  have := List.countP_le_length (l := allPositions) (p := fun p => (g.cells p).isSome)
  rwa [allPositions_length] at this

theorem tileCount_le_of_empty (g : Grid) (p : Pos) (hp : p ∈ allPositions)
    (he : (g.cells p).isSome = false) : tileCount g ≤ 15 := by
  by_contra h
  have h16 : tileCount g = 16 := le_antisymm (tileCount_le g) (by omega)
  have : ∀ q ∈ allPositions, (g.cells q).isSome := by
    rw [← List.countP_eq_length]
    rw [tileCount] at h16
    rw [h16, allPositions_length]
  rw [this p hp] at he
  cases he

theorem cellContent_eq_cells {g : Grid} {p : Pos} (hp : withinBounds p = true) :
    cellContent g p = g.cells p := by
  rw [cellContent, if_pos hp]

theorem cellContent_some {g : Grid} {p : Pos} {t : Tile} (h : cellContent g p = some t) :
    withinBounds p = true ∧ g.cells p = some t := by
  rw [cellContent] at h
  by_cases hw : withinBounds p = true
  · exact ⟨hw, by rwa [if_pos hw] at h⟩
  · rw [if_neg hw] at h; cases h

theorem positionsEqual_iff {a b : Pos} : positionsEqual a b = true ↔ a = b := by
  obtain ⟨ax, ay⟩ := a; obtain ⟨bx, by'⟩ := b
  simp [positionsEqual, Pos.mk.injEq]

/-! ### Geometry of `findFarthestPosition` -/

/-- Signed advancement of `b` relative to `a` along the direction `v`. -/
def dotAlong (v a b : Pos) : Int :=
  (b.x - a.x) * v.x + (b.y - a.y) * v.y

/-- Cross product of `b - a` with `v`; zero iff `b` lies on the line
through `a` in direction `v`. -/
def crossAlong (v a b : Pos) : Int :=
  (b.x - a.x) * v.y - (b.y - a.y) * v.x

/-- `b` is strictly beyond `a` in direction `v` (on the same line). -/
def isBeyond (v a b : Pos) : Bool :=
  decide (crossAlong v a b = 0 ∧ 1 ≤ dotAlong v a b)

theorem isBeyond_ne {v a b : Pos} (h : isBeyond v a b = true) : b ≠ a := by
  rw [isBeyond, decide_eq_true_eq] at h
  intro hba
  subst hba
  have : dotAlong v b b = 0 := by simp [dotAlong]
  omega

theorem getVector_cases (d : Nat) :
    getVector d = ⟨0, -1⟩ ∨ getVector d = ⟨1, 0⟩ ∨
      getVector d = ⟨0, 1⟩ ∨ getVector d = ⟨-1, 0⟩ := by
  rcases d with _ | _ | _ | n
  · exact Or.inl rfl
  · exact Or.inr (Or.inl rfl)
  · exact Or.inr (Or.inr (Or.inl rfl))
  · exact Or.inr (Or.inr (Or.inr rfl))

theorem getVector_unit (d : Nat) :
    1 ≤ (getVector d).x * (getVector d).x + (getVector d).y * (getVector d).y := by
  rcases getVector_cases d with h | h | h | h <;> rw [h] <;> decide

theorem findFarthestAux_spec (g : Grid) (v : Pos) (fuel : Nat) :
    ∀ prev : Pos,
      ((findFarthestAux g v fuel prev).1 = prev ∨
        (withinBounds (findFarthestAux g v fuel prev).1 = true ∧
         cellAvailable g (findFarthestAux g v fuel prev).1 = true)) ∧
      (findFarthestAux g v fuel prev).2 =
        ⟨(findFarthestAux g v fuel prev).1.x + v.x,
         (findFarthestAux g v fuel prev).1.y + v.y⟩ := by
  induction fuel with
  | zero => intro prev; exact ⟨Or.inl rfl, rfl⟩
  | succ n ih =>
    intro prev
    rw [findFarthestAux]
    by_cases h : (withinBounds ⟨prev.x + v.x, prev.y + v.y⟩
        && cellAvailable g ⟨prev.x + v.x, prev.y + v.y⟩) = true
    · rw [if_pos h]
      refine ⟨?_, (ih _).2⟩
      rcases (ih ⟨prev.x + v.x, prev.y + v.y⟩).1 with heq | hav
      · have h2 := h
        rw [Bool.and_eq_true] at h2
        right
        rw [heq]
        exact h2
      · right; exact hav
    · rw [if_neg h]
      exact ⟨Or.inl rfl, rfl⟩

theorem findFarthestAux_beyond (g : Grid) (v : Pos)
    (hv : 1 ≤ v.x * v.x + v.y * v.y) (c : Pos) (fuel : Nat) :
    ∀ prev : Pos, crossAlong v c prev = 0 → 0 ≤ dotAlong v c prev →
      crossAlong v c (findFarthestAux g v fuel prev).2 = 0 ∧
      1 ≤ dotAlong v c (findFarthestAux g v fuel prev).2 := by
  induction fuel with
  | zero =>
    intro prev hcr hdot
    constructor
    · show crossAlong v c ⟨prev.x + v.x, prev.y + v.y⟩ = 0
      have : crossAlong v c ⟨prev.x + v.x, prev.y + v.y⟩ = crossAlong v c prev := by
        simp only [crossAlong]
        ring
      rw [this, hcr]
    · show 1 ≤ dotAlong v c ⟨prev.x + v.x, prev.y + v.y⟩
      have : dotAlong v c ⟨prev.x + v.x, prev.y + v.y⟩
          = dotAlong v c prev + (v.x * v.x + v.y * v.y) := by
        simp only [dotAlong]
        ring
      rw [this]
      linarith
  | succ n ih =>
    intro prev hcr hdot
    rw [findFarthestAux]
    by_cases h : (withinBounds ⟨prev.x + v.x, prev.y + v.y⟩
        && cellAvailable g ⟨prev.x + v.x, prev.y + v.y⟩) = true
    · rw [if_pos h]
      refine ih ⟨prev.x + v.x, prev.y + v.y⟩ ?_ ?_
      · have : crossAlong v c ⟨prev.x + v.x, prev.y + v.y⟩ = crossAlong v c prev := by
          simp only [crossAlong]; ring
        rw [this, hcr]
      · have : dotAlong v c ⟨prev.x + v.x, prev.y + v.y⟩
            = dotAlong v c prev + (v.x * v.x + v.y * v.y) := by
          simp only [dotAlong]; ring
        rw [this]
        linarith
    · rw [if_neg h]
      constructor
      · show crossAlong v c ⟨prev.x + v.x, prev.y + v.y⟩ = 0
        have : crossAlong v c ⟨prev.x + v.x, prev.y + v.y⟩ = crossAlong v c prev := by
          simp only [crossAlong]; ring
        rw [this, hcr]
      · show 1 ≤ dotAlong v c ⟨prev.x + v.x, prev.y + v.y⟩
        have : dotAlong v c ⟨prev.x + v.x, prev.y + v.y⟩
            = dotAlong v c prev + (v.x * v.x + v.y * v.y) := by
          simp only [dotAlong]; ring
        rw [this]
        linarith

theorem findFarthest_next_beyond (g : Grid) (d : Nat) (c : Pos) :
    isBeyond (getVector d) c (findFarthestPosition g c (getVector d)).2 = true := by
  rw [isBeyond, decide_eq_true_eq]
  refine findFarthestAux_beyond g (getVector d) (getVector_unit d) c size c ?_ ?_
  · simp [crossAlong]
  · simp [dotAlong]

theorem findFarthest_farthest (g : Grid) (v : Pos) (c : Pos) :
    (findFarthestPosition g c v).1 = c ∨
      (withinBounds (findFarthestPosition g c v).1 = true ∧
       cellAvailable g (findFarthestPosition g c v).1 = true) :=
  (findFarthestAux_spec g v size c).1

end Game2048


namespace Game2048

/-! ### Frame lemmas for one traversal step -/

theorem processSlide_events (acc : MoveAcc) (c f : Pos) (t : Tile) :
    (processSlide acc c f t).events = acc.events := rfl

theorem processSlide_mergeLog (acc : MoveAcc) (c f : Pos) (t : Tile) :
    (processSlide acc c f t).mergeLog = acc.mergeLog := rfl

theorem processSlide_score (acc : MoveAcc) (c f : Pos) (t : Tile) :
    (processSlide acc c f t).score = acc.score := rfl

theorem processSlide_won (acc : MoveAcc) (c f : Pos) (t : Tile) :
    (processSlide acc c f t).won = acc.won := rfl

theorem processSlide_maxMergeValue (acc : MoveAcc) (c f : Pos) (t : Tile) :
    (processSlide acc c f t).maxMergeValue = acc.maxMergeValue := rfl

theorem processSlide_grid (acc : MoveAcc) (c f : Pos) (t : Tile) :
    (processSlide acc c f t).grid
      = (acc.grid.setCell ⟨t.x, t.y⟩ none).setCell f (some (updatePosition t f)) := rfl

theorem processSlide_moved (acc : MoveAcc) (c f : Pos) (t : Tile) :
    (processSlide acc c f t).moved
      = if positionsEqual c ⟨f.x, f.y⟩ then acc.moved else true := rfl

theorem processSlide_moved_mono (acc : MoveAcc) (c f : Pos) (t : Tile)
    (h : acc.moved = true) : (processSlide acc c f t).moved = true := by
  rw [processSlide_moved]
  split <;> simp [h]

theorem processMerge_grid (acc : MoveAcc) (c n : Pos) (tile next : Tile) :
    (processMerge acc c n tile next).grid
      = removeTile (insertTile acc.grid (mergedTile n tile next)) tile := rfl

theorem processMerge_score (acc : MoveAcc) (c n : Pos) (tile next : Tile) :
    (processMerge acc c n tile next).score = acc.score + tile.value * 2 := rfl

theorem processMerge_won (acc : MoveAcc) (c n : Pos) (tile next : Tile) :
    (processMerge acc c n tile next).won
      = if tile.value * 2 = 2048 then true else acc.won := rfl

theorem processMerge_maxMergeValue (acc : MoveAcc) (c n : Pos) (tile next : Tile) :
    (processMerge acc c n tile next).maxMergeValue
      = if tile.value * 2 > acc.maxMergeValue then tile.value * 2
        else acc.maxMergeValue := rfl

theorem processMerge_mergeLog (acc : MoveAcc) (c n : Pos) (tile next : Tile) :
    (processMerge acc c n tile next).mergeLog
      = acc.mergeLog ++ [⟨n, tile.value, next.value, tile.value * 2,
          tile.mergedFrom.isSome, next.mergedFrom.isSome⟩] := rfl

theorem processMerge_moved (acc : MoveAcc) (c n : Pos) (tile next : Tile) :
    (processMerge acc c n tile next).moved
      = if positionsEqual c ⟨n.x, n.y⟩ then acc.moved else true := rfl

theorem processMerge_events (acc : MoveAcc) (c n : Pos) (tile next : Tile) :
    (processMerge acc c n tile next).events
      = acc.events
        ++ ((if 64 ≤ tile.value * 2 then [Event.milestone (tile.value * 2)] else [])
          ++ (if tile.value * 2 = 2048 then [Event.won] else [])) := by
  show (if tile.value * 2 = 2048
        then (if 64 ≤ tile.value * 2
              then acc.events ++ [Event.milestone (tile.value * 2)] else acc.events)
            ++ [Event.won]
        else (if 64 ≤ tile.value * 2
              then acc.events ++ [Event.milestone (tile.value * 2)] else acc.events)) = _
  split <;> split <;> simp

/-- Additivity and content of one traversal step: events and the merge log
only grow, the score grows by the sum of the new merges, the won flag and
`maxMergeValue` are determined by the new merges, every appended event is a
milestone or win event, every logged merge joins two equal values into
their sum and had an unmerged target, and a 2048 merge appends a win
event. -/
theorem processCell_step (v : Pos) (acc : MoveAcc) (c : Pos) :
    ∃ ev lg,
      (processCell v acc c).events = acc.events ++ ev ∧
      (processCell v acc c).mergeLog = acc.mergeLog ++ lg ∧
      (processCell v acc c).score = acc.score + (lg.map MergeRec.mergedValue).sum ∧
      (processCell v acc c).won = (acc.won || lg.any fun rec => rec.mergedValue == 2048) ∧
      (processCell v acc c).maxMergeValue
        = lg.foldl (fun a rec => if rec.mergedValue > a then rec.mergedValue else a)
            acc.maxMergeValue ∧
      (acc.moved = true → (processCell v acc c).moved = true) ∧
      (∀ e ∈ ev, (∃ w, 64 ≤ w ∧ e = Event.milestone w) ∨ e = Event.won) ∧
      (∀ rec ∈ lg, rec.tileValue = rec.nextValue ∧
        rec.mergedValue = rec.tileValue + rec.nextValue ∧
        rec.targetHadMerged = false) ∧
      (∀ rec ∈ lg, rec.mergedValue = 2048 → Event.won ∈ ev) := by
  rcases h1 : cellContent acc.grid c with _ | tile
  · refine ⟨[], [], ?_, ?_, ?_, ?_, ?_, ?_, ?_, ?_, ?_⟩ <;>
      simp [processCell, h1]
  · rcases h2 : cellContent acc.grid (findFarthestPosition acc.grid c v).2 with _ | next
    · have hpc : processCell v acc c
          = processSlide acc c (findFarthestPosition acc.grid c v).1 tile := by
        rw [processCell, h1]
        simp only [h2]
      refine ⟨[], [], ?_, ?_, ?_, ?_, ?_,
          fun h => by rw [hpc]; exact processSlide_moved_mono _ _ _ _ h,
          ?_, ?_, ?_⟩ <;>
        simp [hpc, processSlide_events, processSlide_mergeLog, processSlide_score,
          processSlide_won, processSlide_maxMergeValue]
    · by_cases h3 : (next.value == tile.value && next.mergedFrom.isNone) = true
      · have hpc : processCell v acc c
            = processMerge acc c (findFarthestPosition acc.grid c v).2 tile next := by
          rw [processCell, h1]
          simp only [h2, h3, if_true]
        rw [Bool.and_eq_true, beq_iff_eq] at h3
        obtain ⟨hval, hmf⟩ := h3
        rw [Option.isNone_iff_eq_none] at hmf
        refine ⟨(if 64 ≤ tile.value * 2 then [Event.milestone (tile.value * 2)] else [])
            ++ (if tile.value * 2 = 2048 then [Event.won] else []),
          [⟨(findFarthestPosition acc.grid c v).2, tile.value, next.value, tile.value * 2,
            tile.mergedFrom.isSome, next.mergedFrom.isSome⟩],
          ?_, ?_, ?_, ?_, ?_, ?_, ?_, ?_, ?_⟩
        · rw [hpc, processMerge_events]
        · rw [hpc, processMerge_mergeLog]
        · rw [hpc, processMerge_score]; simp
        · rw [hpc, processMerge_won]
          split
          · next h => simp [h]
          · next h =>
            have hb : (tile.value * 2 == 2048) = false := by
              rw [beq_eq_false_iff_ne]; exact h
            simp [hb]
        · rw [hpc, processMerge_maxMergeValue]; rfl
        · intro h
          rw [hpc, processMerge_moved]
          split <;> simp [h]
        · intro e he
          rcases List.mem_append.mp he with he1 | he2
          · left
            by_cases h64 : 64 ≤ tile.value * 2
            · rw [if_pos h64] at he1
              exact ⟨tile.value * 2, h64, by simpa using he1⟩
            · rw [if_neg h64] at he1; cases he1
          · right
            by_cases h48 : tile.value * 2 = 2048
            · rw [if_pos h48] at he2
              simpa using he2
            · rw [if_neg h48] at he2; cases he2
        · intro rec hrec
          rw [List.mem_singleton] at hrec
          subst hrec
          refine ⟨hval.symm, ?_, ?_⟩
          · show tile.value * 2 = tile.value + next.value
            omega
          show next.mergedFrom.isSome = false
          rw [hmf]
          rfl
        · intro rec hrec h48
          rw [List.mem_singleton] at hrec
          subst hrec
          simp only at h48
          rw [List.mem_append, if_pos h48]
          right
          simp
      · have hpc : processCell v acc c
            = processSlide acc c (findFarthestPosition acc.grid c v).1 tile := by
          rw [processCell, h1]
          simp only [h2, h3, if_false, Bool.false_eq_true]
        refine ⟨[], [], ?_, ?_, ?_, ?_, ?_,
            fun h => by rw [hpc]; exact processSlide_moved_mono _ _ _ _ h,
            ?_, ?_, ?_⟩ <;>
          simp [hpc, processSlide_events, processSlide_mergeLog, processSlide_score,
            processSlide_won, processSlide_maxMergeValue]

end Game2048

namespace Game2048

/-! ### Aggregated facts about the whole traversal -/

theorem foldl_processCell_step (v : Pos) (cells : List Pos) :
    ∀ acc : MoveAcc,
      ∃ ev lg,
        (cells.foldl (processCell v) acc).events = acc.events ++ ev ∧
        (cells.foldl (processCell v) acc).mergeLog = acc.mergeLog ++ lg ∧
        (cells.foldl (processCell v) acc).score
          = acc.score + (lg.map MergeRec.mergedValue).sum ∧
        (cells.foldl (processCell v) acc).won
          = (acc.won || lg.any fun rec => rec.mergedValue == 2048) ∧
        (cells.foldl (processCell v) acc).maxMergeValue
          = lg.foldl (fun a rec => if rec.mergedValue > a then rec.mergedValue else a)
              acc.maxMergeValue ∧
        (acc.moved = true → (cells.foldl (processCell v) acc).moved = true) ∧
        (∀ e ∈ ev, (∃ w, 64 ≤ w ∧ e = Event.milestone w) ∨ e = Event.won) ∧
        (∀ rec ∈ lg, rec.tileValue = rec.nextValue ∧
          rec.mergedValue = rec.tileValue + rec.nextValue ∧
          rec.targetHadMerged = false) ∧
        (∀ rec ∈ lg, rec.mergedValue = 2048 → Event.won ∈ ev) := by
  induction cells with
  | nil =>
    intro acc
    exact ⟨[], [], by simp, by simp, by simp, by simp, by simp, fun h => h,
      by simp, by simp, by simp⟩
  | cons c cs ih =>
    intro acc
    obtain ⟨ev1, lg1, he1, hl1, hs1, hw1, hm1, hmv1, hec1, hrc1, hlk1⟩ :=
      processCell_step v acc c
    obtain ⟨ev2, lg2, he2, hl2, hs2, hw2, hm2, hmv2, hec2, hrc2, hlk2⟩ :=
      ih (processCell v acc c)
    refine ⟨ev1 ++ ev2, lg1 ++ lg2, ?_, ?_, ?_, ?_, ?_, ?_, ?_, ?_, ?_⟩
    · rw [List.foldl_cons, he2, he1, List.append_assoc]
    · rw [List.foldl_cons, hl2, hl1, List.append_assoc]
    · rw [List.foldl_cons, hs2, hs1, List.map_append, List.sum_append]
      omega
    · rw [List.foldl_cons, hw2, hw1, List.any_append, Bool.or_assoc]
    · rw [List.foldl_cons, hm2, hm1, List.foldl_append]
    · intro h
      rw [List.foldl_cons]
      exact hmv2 (hmv1 h)
    · intro e he
      rcases List.mem_append.mp he with h | h
      · exact hec1 e h
      · exact hec2 e h
    · intro rec hrec
      rcases List.mem_append.mp hrec with h | h
      · exact hrc1 rec h
      · exact hrc2 rec h
    · intro rec hrec h48
      rcases List.mem_append.mp hrec with h | h
      · exact List.mem_append.mpr (Or.inl (hlk1 rec h h48))
      · exact List.mem_append.mpr (Or.inr (hlk2 rec h h48))

theorem runTraversal_spec (g : Grid) (s : Nat) (w : Bool) (d : Nat) :
    (runTraversal g s w d).score
      = s + (((runTraversal g s w d).mergeLog.map MergeRec.mergedValue).sum) ∧
    (runTraversal g s w d).won
      = (w || (runTraversal g s w d).mergeLog.any fun rec => rec.mergedValue == 2048) ∧
    (runTraversal g s w d).maxMergeValue
      = (runTraversal g s w d).mergeLog.foldl
          (fun a rec => if rec.mergedValue > a then rec.mergedValue else a) 0 ∧
    (∀ e ∈ (runTraversal g s w d).events,
      (∃ w', 64 ≤ w' ∧ e = Event.milestone w') ∨ e = Event.won) ∧
    (∀ rec ∈ (runTraversal g s w d).mergeLog,
      rec.tileValue = rec.nextValue ∧
      rec.mergedValue = rec.tileValue + rec.nextValue ∧
      rec.targetHadMerged = false) ∧
    (∀ rec ∈ (runTraversal g s w d).mergeLog,
      rec.mergedValue = 2048 → Event.won ∈ (runTraversal g s w d).events) := by
  obtain ⟨ev, lg, he, hl, hs, hw, hm, _, hec, hrc, hlk⟩ :=
    foldl_processCell_step (getVector d) (traversalCells (getVector d))
      { grid := g, score := s, won := w, moved := false,
        maxMergeValue := 0, events := [], mergeLog := [] }
  have hrt : runTraversal g s w d
      = (traversalCells (getVector d)).foldl (processCell (getVector d))
          { grid := g, score := s, won := w, moved := false,
            maxMergeValue := 0, events := [], mergeLog := [] } := rfl
  rw [List.nil_append] at he hl
  rw [hrt, he, hl]
  exact ⟨by simpa using hs, by simpa using hw, by simpa using hm, hec, hrc, hlk⟩

theorem processCell_moved_of_merge (d : Nat) (acc : MoveAcc) (c : Pos)
    (h : (processCell (getVector d) acc c).mergeLog ≠ acc.mergeLog) :
    (processCell (getVector d) acc c).moved = true := by
  rcases h1 : cellContent acc.grid c with _ | tile
  · exact absurd (by simp [processCell, h1]) h
  · rcases h2 : cellContent acc.grid
        (findFarthestPosition acc.grid c (getVector d)).2 with _ | next
    · have hpc : processCell (getVector d) acc c
          = processSlide acc c (findFarthestPosition acc.grid c (getVector d)).1 tile := by
        rw [processCell, h1]; simp only [h2]
      exact absurd (by rw [hpc, processSlide_mergeLog]) h
    · by_cases h3 : (next.value == tile.value && next.mergedFrom.isNone) = true
      · have hpc : processCell (getVector d) acc c
            = processMerge acc c (findFarthestPosition acc.grid c (getVector d)).2
                tile next := by
          rw [processCell, h1]; simp only [h2, h3, if_true]
        rw [hpc, processMerge_moved]
        have hne : (findFarthestPosition acc.grid c (getVector d)).2 ≠ c :=
          isBeyond_ne (findFarthest_next_beyond acc.grid d c)
        have : positionsEqual c ⟨(findFarthestPosition acc.grid c (getVector d)).2.x,
            (findFarthestPosition acc.grid c (getVector d)).2.y⟩ = false := by
          rw [← Bool.not_eq_true]
          intro hcontra
          rw [positionsEqual_iff] at hcontra
          exact hne hcontra.symm
        rw [this]
        simp
      · have hpc : processCell (getVector d) acc c
            = processSlide acc c (findFarthestPosition acc.grid c (getVector d)).1 tile := by
          rw [processCell, h1]
          simp only [h2, h3, if_false, Bool.false_eq_true]
        exact absurd (by rw [hpc, processSlide_mergeLog]) h

theorem foldl_moved_mono (v : Pos) (cells : List Pos) :
    ∀ acc : MoveAcc, acc.moved = true →
      (cells.foldl (processCell v) acc).moved = true := by
  induction cells with
  | nil => intro acc h; exact h
  | cons c cs ih =>
    intro acc h
    obtain ⟨_, _, _, _, _, _, _, hmv, _, _, _⟩ := processCell_step v acc c
    exact ih _ (hmv h)

theorem foldl_moved_of_mergeLog (d : Nat) (cells : List Pos) :
    ∀ acc : MoveAcc,
      (cells.foldl (processCell (getVector d)) acc).mergeLog ≠ acc.mergeLog →
      (cells.foldl (processCell (getVector d)) acc).moved = true := by
  induction cells with
  | nil => intro acc h; exact absurd rfl h
  | cons c cs ih =>
    intro acc h
    rw [List.foldl_cons] at h ⊢
    by_cases hstep : (processCell (getVector d) acc c).mergeLog = acc.mergeLog
    · exact ih _ (by rwa [hstep])
    · exact foldl_moved_mono _ _ _ (processCell_moved_of_merge d acc c hstep)

theorem runTraversal_moved_of_mergeLog (g : Grid) (s : Nat) (w : Bool) (d : Nat)
    (h : (runTraversal g s w d).mergeLog ≠ []) :
    (runTraversal g s w d).moved = true := by
  rw [runTraversal] at h ⊢
  exact foldl_moved_of_mergeLog d _ _ (by simpa using h)

end Game2048

namespace Game2048

/-! ### Consistency and tile-count preservation -/

theorem Pos.eta (p : Pos) : (⟨p.x, p.y⟩ : Pos) = p := rfl

theorem setCell_consistent_none {g : Grid} (hc : gridConsistent g) (p : Pos) :
    gridConsistent (g.setCell p none) := by
  intro q hq t ht
  rw [setCell_cells] at ht
  by_cases hqp : q = p
  · rw [if_pos hqp] at ht; cases ht
  · rw [if_neg hqp] at ht; exact hc q hq t ht

theorem setCell_consistent_some {g : Grid} (hc : gridConsistent g) (p : Pos) (t : Tile)
    (hx : t.x = p.x) (hy : t.y = p.y) : gridConsistent (g.setCell p (some t)) := by
  intro q hq u hu
  rw [setCell_cells] at hu
  by_cases hqp : q = p
  · rw [if_pos hqp] at hu
    cases hu
    exact ⟨hqp ▸ hx, hqp ▸ hy⟩
  · rw [if_neg hqp] at hu; exact hc q hq u hu

theorem prepareTiles_consistent {g : Grid} (hc : gridConsistent g) :
    gridConsistent (prepareTiles g) := by
  intro q hq t ht
  have hw := withinBounds_of_mem hq
  simp only [prepareTiles, hw, if_pos] at ht
  rcases ho : g.cells q with _ | t0
  · rw [ho] at ht; cases ht
  · rw [ho] at ht
    rw [Option.map_some'] at ht
    obtain ⟨hx, hy⟩ := hc q hq t0 ho
    cases ht
    exact ⟨hx, hy⟩

theorem prepareTiles_cells_isSome (g : Grid) (p : Pos) :
    ((prepareTiles g).cells p).isSome = (g.cells p).isSome := by
  simp only [prepareTiles]
  split
  · cases g.cells p <;> rfl
  · rfl

theorem prepareTiles_tileCount (g : Grid) : tileCount (prepareTiles g) = tileCount g := by
  rw [tileCount, tileCount]
  exact List.countP_congr (fun p _ => by rw [prepareTiles_cells_isSome])

theorem processSlide_consistent {acc : MoveAcc} (hc : gridConsistent acc.grid)
    (c f : Pos) (t : Tile) : gridConsistent (processSlide acc c f t).grid := by
  rw [processSlide_grid]
  exact setCell_consistent_some (setCell_consistent_none hc _) f (updatePosition t f) rfl rfl

theorem processMerge_consistent {acc : MoveAcc} (hc : gridConsistent acc.grid)
    (c n : Pos) (tile next : Tile) : gridConsistent (processMerge acc c n tile next).grid := by
  rw [processMerge_grid, removeTile, insertTile]
  exact setCell_consistent_none
    (setCell_consistent_some hc _ (mergedTile n tile next) rfl rfl) _

theorem processCell_consistent (v : Pos) (acc : MoveAcc) (c : Pos)
    (hc : gridConsistent acc.grid) : gridConsistent (processCell v acc c).grid := by
  rcases h1 : cellContent acc.grid c with _ | tile
  · have hpc : processCell v acc c = acc := by simp [processCell, h1]
    rw [hpc]; exact hc
  · rcases h2 : cellContent acc.grid (findFarthestPosition acc.grid c v).2 with _ | next
    · have hpc : processCell v acc c
          = processSlide acc c (findFarthestPosition acc.grid c v).1 tile := by
        rw [processCell, h1]; simp only [h2]
      rw [hpc]; exact processSlide_consistent hc _ _ _
    · by_cases h3 : (next.value == tile.value && next.mergedFrom.isNone) = true
      · have hpc : processCell v acc c
            = processMerge acc c (findFarthestPosition acc.grid c v).2 tile next := by
          rw [processCell, h1]; simp only [h2, h3, if_true]
        rw [hpc]; exact processMerge_consistent hc _ _ _ _
      · have hpc : processCell v acc c
            = processSlide acc c (findFarthestPosition acc.grid c v).1 tile := by
          rw [processCell, h1]; simp only [h2, h3, if_false, Bool.false_eq_true]
        rw [hpc]; exact processSlide_consistent hc _ _ _

theorem foldl_consistent (v : Pos) (cells : List Pos) :
    ∀ acc : MoveAcc, gridConsistent acc.grid →
      gridConsistent (cells.foldl (processCell v) acc).grid := by
  induction cells with
  | nil => intro acc hc; exact hc
  | cons c cs ih => intro acc hc; exact ih _ (processCell_consistent v acc c hc)

theorem runTraversal_consistent (g : Grid) (s : Nat) (w : Bool) (d : Nat)
    (hc : gridConsistent g) : gridConsistent (runTraversal g s w d).grid :=
  foldl_consistent _ _ _ hc

/-- The moving tile read from `cell` sits at `cell`: its recorded
coordinates are those of `cell`. -/
theorem tile_pos_eq {g : Grid} {c : Pos} {t : Tile} (hc : gridConsistent g)
    (h : cellContent g c = some t) : (⟨t.x, t.y⟩ : Pos) = c := by
  obtain ⟨hw, hcc⟩ := cellContent_some h
  obtain ⟨hx, hy⟩ := hc c (mem_allPositions hw) t hcc
  rw [hx, hy]

theorem processCell_count (d : Nat) (acc : MoveAcc) (c : Pos)
    (hc : gridConsistent acc.grid) :
    tileCount (processCell (getVector d) acc c).grid
        + (processCell (getVector d) acc c).mergeLog.length
      = tileCount acc.grid + acc.mergeLog.length := by
  rcases h1 : cellContent acc.grid c with _ | tile
  · simp [processCell, h1]
  · obtain ⟨hw, hcc⟩ := cellContent_some h1
    have hcmem : c ∈ allPositions := mem_allPositions hw
    have hpos : (⟨tile.x, tile.y⟩ : Pos) = c := tile_pos_eq hc h1
    have hslide : ∀ f : Tile → MoveAcc,
        (∀ t, f t = processSlide acc c (findFarthestPosition acc.grid c (getVector d)).1 t) →
        tileCount (f tile).grid + (f tile).mergeLog.length
          = tileCount acc.grid + acc.mergeLog.length := by
      intro f hf
      rw [hf, processSlide_mergeLog, processSlide_grid, hpos]
      have eq1 := tileCount_setCell acc.grid c none hcmem
      rw [hcc] at eq1
      simp at eq1
      rcases findFarthest_farthest acc.grid (getVector d) c with hf1 | ⟨hfw, hfa⟩
      · rw [hf1]
        have eq2 := tileCount_setCell (acc.grid.setCell c none) c
          (some (updatePosition tile c)) hcmem
        rw [setCell_cells, if_pos rfl] at eq2
        simp at eq2
        omega
      · set f1 := (findFarthestPosition acc.grid c (getVector d)).1
        have hfmem : f1 ∈ allPositions := mem_allPositions hfw
        have hfnone : acc.grid.cells f1 = none := by
          rw [cellAvailable, cellContent_eq_cells hfw, Option.isNone_iff_eq_none] at hfa
          exact hfa
        have hfc : f1 ≠ c := by
          intro h
          rw [h, hcc] at hfnone
          cases hfnone
        have eq2 := tileCount_setCell (acc.grid.setCell c none) f1
          (some (updatePosition tile f1)) hfmem
        rw [setCell_cells, if_neg hfc, hfnone] at eq2
        simp at eq2
        omega
    rcases h2 : cellContent acc.grid
        (findFarthestPosition acc.grid c (getVector d)).2 with _ | next
    · have hpc : processCell (getVector d) acc c
          = processSlide acc c (findFarthestPosition acc.grid c (getVector d)).1 tile := by
        rw [processCell, h1]; simp only [h2]
      rw [hpc]
      exact hslide _ (fun t => rfl)
    · by_cases h3 : (next.value == tile.value && next.mergedFrom.isNone) = true
      · have hpc : processCell (getVector d) acc c
            = processMerge acc c (findFarthestPosition acc.grid c (getVector d)).2
                tile next := by
          rw [processCell, h1]; simp only [h2, h3, if_true]
        set n := (findFarthestPosition acc.grid c (getVector d)).2 with hn
        obtain ⟨hnw, hnc⟩ := cellContent_some h2
        have hnmem : n ∈ allPositions := mem_allPositions hnw
        have hnec : n ≠ c := isBeyond_ne (findFarthest_next_beyond acc.grid d c)
        rw [hpc, processMerge_mergeLog, processMerge_grid, removeTile, insertTile]
        have hmx : (⟨(mergedTile n tile next).x, (mergedTile n tile next).y⟩ : Pos) = n := rfl
        rw [hmx, hpos]
        have eq1 := tileCount_setCell acc.grid n (some (mergedTile n tile next)) hnmem
        rw [hnc] at eq1
        simp at eq1
        have hcn : ¬(c = n) := fun h => hnec h.symm
        have eq2 := tileCount_setCell (acc.grid.setCell n (some (mergedTile n tile next)))
          c none hcmem
        rw [setCell_cells, if_neg hcn, hcc] at eq2
        simp at eq2
        rw [List.length_append, List.length_singleton]
        omega
      · have hpc : processCell (getVector d) acc c
            = processSlide acc c (findFarthestPosition acc.grid c (getVector d)).1 tile := by
          rw [processCell, h1]; simp only [h2, h3, if_false, Bool.false_eq_true]
        rw [hpc]
        exact hslide _ (fun t => rfl)

end Game2048

namespace Game2048

/-! ### A moved flag means a free cell remains -/

theorem processCell_mergeLog_append (v : Pos) (acc : MoveAcc) (c : Pos) :
    ∃ lg, (processCell v acc c).mergeLog = acc.mergeLog ++ lg := by
  obtain ⟨ev, lg, _, hl, _⟩ := processCell_step v acc c
  exact ⟨lg, hl⟩

theorem foldl_mergeLog_append (v : Pos) (cells : List Pos) (acc : MoveAcc) :
    ∃ lg, (cells.foldl (processCell v) acc).mergeLog = acc.mergeLog ++ lg := by
  obtain ⟨ev, lg, _, hl, _⟩ := foldl_processCell_step v cells acc
  exact ⟨lg, hl⟩

theorem processCell_moved_source (d : Nat) (acc : MoveAcc) (c : Pos)
    (_hc : gridConsistent acc.grid)
    (h : (processCell (getVector d) acc c).moved = true) :
    acc.moved = true ∨ (processCell (getVector d) acc c).mergeLog ≠ acc.mergeLog ∨
      tileCount acc.grid ≤ 15 := by
  rcases h1 : cellContent acc.grid c with _ | tile
  · left
    have hpc : processCell (getVector d) acc c = acc := by simp [processCell, h1]
    rwa [hpc] at h
  · have hslide : ∀ hpc : processCell (getVector d) acc c
          = processSlide acc c (findFarthestPosition acc.grid c (getVector d)).1 tile,
        acc.moved = true ∨ (processCell (getVector d) acc c).mergeLog ≠ acc.mergeLog ∨
          tileCount acc.grid ≤ 15 := by
      intro hpc
      rw [hpc, processSlide_moved] at h
      set f1 := (findFarthestPosition acc.grid c (getVector d)).1 with hf1
      by_cases hpe : positionsEqual c ⟨f1.x, f1.y⟩ = true
      · rw [if_pos hpe] at h
        exact Or.inl h
      · have hfc : f1 ≠ c := by
          intro hq
          apply hpe
          rw [positionsEqual_iff, hq]
        rcases findFarthest_farthest acc.grid (getVector d) c with hfar | ⟨hfw, hfa⟩
        · exact absurd hfar hfc
        · right; right
          have hfnone : acc.grid.cells f1 = none := by
            rw [cellAvailable, cellContent_eq_cells hfw, Option.isNone_iff_eq_none] at hfa
            exact hfa
          refine tileCount_le_of_empty acc.grid f1 (mem_allPositions hfw) ?_
          rw [hfnone]
          rfl
    rcases h2 : cellContent acc.grid
        (findFarthestPosition acc.grid c (getVector d)).2 with _ | next
    · exact hslide (by rw [processCell, h1]; simp only [h2])
    · by_cases h3 : (next.value == tile.value && next.mergedFrom.isNone) = true
      · right; left
        have hpc : processCell (getVector d) acc c
            = processMerge acc c (findFarthestPosition acc.grid c (getVector d)).2
                tile next := by
          rw [processCell, h1]; simp only [h2, h3, if_true]
        rw [hpc, processMerge_mergeLog]
        intro heq
        have := congrArg List.length heq
        simp at this
      · exact hslide
          (by rw [processCell, h1]; simp only [h2, h3, if_false, Bool.false_eq_true])

theorem foldl_count (d : Nat) (cells : List Pos) :
    ∀ acc : MoveAcc, gridConsistent acc.grid →
      tileCount (cells.foldl (processCell (getVector d)) acc).grid
          + (cells.foldl (processCell (getVector d)) acc).mergeLog.length
        = tileCount acc.grid + acc.mergeLog.length := by
  induction cells with
  | nil => intro acc _; rfl
  | cons c cs ih =>
    intro acc hc
    rw [List.foldl_cons]
    rw [ih _ (processCell_consistent _ acc c hc)]
    exact processCell_count d acc c hc

theorem foldl_moved_source (d : Nat) (cells : List Pos) :
    ∀ acc : MoveAcc, gridConsistent acc.grid →
      (cells.foldl (processCell (getVector d)) acc).moved = true →
      acc.moved = true ∨
        (cells.foldl (processCell (getVector d)) acc).mergeLog ≠ acc.mergeLog ∨
        tileCount acc.grid ≤ 15 := by
  induction cells with
  | nil => intro acc _ h; exact Or.inl h
  | cons c cs ih =>
    intro acc hc h
    rw [List.foldl_cons] at h
    obtain ⟨lg1, hl1⟩ := processCell_mergeLog_append (getVector d) acc c
    obtain ⟨lg2, hl2⟩ := foldl_mergeLog_append (getVector d) cs (processCell (getVector d) acc c)
    have htot : (List.foldl (processCell (getVector d)) acc (c :: cs)).mergeLog
        = acc.mergeLog ++ (lg1 ++ lg2) := by
      rw [List.foldl_cons, hl2, hl1, List.append_assoc]
    have hc1 := processCell_consistent (getVector d) acc c hc
    have hne_of_len : lg1 ≠ [] ∨ lg2 ≠ [] →
        (List.foldl (processCell (getVector d)) acc (c :: cs)).mergeLog ≠ acc.mergeLog := by
      intro hne heq
      rw [htot] at heq
      have := congrArg List.length heq
      rw [List.length_append, List.length_append] at this
      have h1 : lg1.length = 0 := by omega
      have h2 : lg2.length = 0 := by omega
      rcases hne with hne | hne
      · exact hne (List.length_eq_zero.mp h1)
      · exact hne (List.length_eq_zero.mp h2)
    rcases ih _ hc1 h with hm | hne | hcnt
    · rcases processCell_moved_source d acc c hc hm with h' | h' | h'
      · exact Or.inl h'
      · refine Or.inr (Or.inl (hne_of_len (Or.inl ?_)))
        intro hlg1
        apply h'
        rw [hl1, hlg1, List.append_nil]
      · exact Or.inr (Or.inr h')
    · refine Or.inr (Or.inl (hne_of_len (Or.inr ?_)))
      intro hlg2
      apply hne
      rw [hl2, hlg2, List.append_nil]
    · by_cases hlg1 : lg1 = []
      · right; right
        have hcount := processCell_count d acc c hc
        rw [hl1, hlg1, List.append_nil] at hcount
        omega
      · exact Or.inr (Or.inl (hne_of_len (Or.inl hlg1)))

theorem runTraversal_count (g : Grid) (s : Nat) (w : Bool) (d : Nat)
    (hc : gridConsistent g) :
    tileCount (runTraversal g s w d).grid + (runTraversal g s w d).mergeLog.length
      = tileCount g := by
  have hrt : runTraversal g s w d
      = (traversalCells (getVector d)).foldl (processCell (getVector d))
          { grid := g, score := s, won := w, moved := false,
            maxMergeValue := 0, events := [], mergeLog := [] } := rfl
  rw [hrt]
  have := foldl_count d (traversalCells (getVector d))
    { grid := g, score := s, won := w, moved := false,
      maxMergeValue := 0, events := [], mergeLog := [] } hc
  simpa using this

theorem runTraversal_moved_count (g : Grid) (s : Nat) (w : Bool) (d : Nat)
    (hc : gridConsistent g) (hm : (runTraversal g s w d).moved = true) :
    tileCount (runTraversal g s w d).grid ≤ 15 := by
  have hrt : runTraversal g s w d
      = (traversalCells (getVector d)).foldl (processCell (getVector d))
          { grid := g, score := s, won := w, moved := false,
            maxMergeValue := 0, events := [], mergeLog := [] } := rfl
  have hcount := runTraversal_count g s w d hc
  have hle := tileCount_le g
  have hsrc := foldl_moved_source d (traversalCells (getVector d))
    { grid := g, score := s, won := w, moved := false,
      maxMergeValue := 0, events := [], mergeLog := [] } hc (by rw [← hrt]; exact hm)
  rcases hsrc with h | h | h
  · cases h
  · rw [← hrt] at h
    have hpos : 0 < (runTraversal g s w d).mergeLog.length := by
      rcases hlog : (runTraversal g s w d).mergeLog with _ | ⟨r, rs⟩
      · exact absurd (by simpa using hlog) h
      · simp
    omega
  · have h' : tileCount g ≤ 15 := h
    omega

theorem availableCells_ne_of_count (g : Grid) (h : tileCount g ≤ 15) :
    availableCells g ≠ [] := by
  intro hav
  have hall : ∀ p ∈ allPositions, ((fun p => (g.cells p).isSome) p) = true := by
    intro p hp
    by_contra hps
    have hnone : (g.cells p).isNone = true := by
      rcases hcell : g.cells p with _ | t
      · rfl
      · exact absurd (by show (g.cells p).isSome = true; rw [hcell]; rfl) hps
    have hmem : p ∈ availableCells g := List.mem_filter.mpr ⟨hp, hnone⟩
    rw [hav] at hmem
    cases hmem
  have h16 : tileCount g = 16 := by
    rw [tileCount, List.countP_eq_length.mpr hall, allPositions_length]
  omega

theorem addRandomTile_count (g : Grid) (r : Nat) (two : Bool)
    (hav : availableCells g ≠ []) :
    tileCount (addRandomTile g r two) = tileCount g + 1 := by
  have hcells : cellsAvailable g = true := by
    simp [cellsAvailable, List.isEmpty_iff, hav]
  have hlen : 0 < (availableCells g).length := List.length_pos.mpr hav
  have hmod : r % (availableCells g).length < (availableCells g).length :=
    Nat.mod_lt _ hlen
  rcases hr : randomAvailableCell g r with _ | p
  · rw [randomAvailableCell] at hr
    simp only [List.getElem?_eq_none_iff] at hr
    omega
  · have hp : p ∈ availableCells g := by
      rw [randomAvailableCell] at hr
      exact List.getElem?_mem hr
    obtain ⟨hpmem, hpfilter⟩ := List.mem_filter.mp hp
    have hpnone : (g.cells p).isNone = true := hpfilter
    have hpcell : g.cells p = none := Option.isNone_iff_eq_none.mp hpnone
    rw [addRandomTile, if_pos hcells, hr]
    show tileCount (g.setCell p (some ⟨p.x, p.y, if two = true then 2 else 4, none, none⟩))
      = tileCount g + 1
    have := tileCount_setCell g p
      (some ⟨p.x, p.y, if two = true then 2 else 4, none, none⟩) hpmem
    rw [hpcell] at this
    simpa using this

end Game2048

namespace Game2048

/-! ### No tile produced by a merge is touched again in the same move -/

/-- No tile carrying a merge-source pair sits at a cell that the traversal
has not yet processed. -/
def noMarkedPending (g : Grid) (pending : List Pos) : Prop :=
  ∀ p t, cellContent g p = some t → t.mergedFrom.isSome = true → p ∉ pending

theorem traversal_pairwise (d : Nat) :
    List.Pairwise (fun a b => isBeyond (getVector d) a b = false)
      (traversalCells (getVector d)) := by
  rcases getVector_cases d with h | h | h | h <;> rw [h] <;> decide

theorem prepareTiles_noMarked (g : Grid) (pending : List Pos) :
    noMarkedPending (prepareTiles g) pending := by
  intro p t hpt hmark
  exfalso
  obtain ⟨hw, hcell⟩ := cellContent_some hpt
  simp only [prepareTiles, hw, if_pos] at hcell
  rcases ho : g.cells p with _ | t0
  · rw [ho] at hcell; cases hcell
  · rw [ho, Option.map_some'] at hcell
    cases hcell
    simp [savePosition] at hmark

theorem processCell_marked (d : Nat) (acc : MoveAcc) (c : Pos) (rest : List Pos)
    (hpair : ∀ b ∈ rest, isBeyond (getVector d) c b = false)
    (hinv : noMarkedPending acc.grid (c :: rest)) :
    noMarkedPending (processCell (getVector d) acc c).grid rest ∧
    (∀ rec ∈ (processCell (getVector d) acc c).mergeLog,
        rec ∈ acc.mergeLog ∨ (rec.moverHadMerged = false ∧ rec.targetHadMerged = false)) := by
  have hweak : ∀ (g : Grid), noMarkedPending g (c :: rest) → noMarkedPending g rest :=
    fun g hg p t hpt hm hp => hg p t hpt hm (List.mem_cons_of_mem _ hp)
  rcases h1 : cellContent acc.grid c with _ | tile
  · have hpc : processCell (getVector d) acc c = acc := by simp [processCell, h1]
    rw [hpc]
    exact ⟨hweak _ hinv, fun rec hrec => Or.inl hrec⟩
  · have htile_unmarked : tile.mergedFrom.isSome = false := by
      by_contra hm
      rw [Bool.not_eq_false] at hm
      exact hinv c tile h1 hm (List.mem_cons_self c rest)
    have hslide : ∀ hpc : processCell (getVector d) acc c
        = processSlide acc c (findFarthestPosition acc.grid c (getVector d)).1 tile,
        noMarkedPending (processCell (getVector d) acc c).grid rest ∧
        (∀ rec ∈ (processCell (getVector d) acc c).mergeLog,
            rec ∈ acc.mergeLog ∨
              (rec.moverHadMerged = false ∧ rec.targetHadMerged = false)) := by
      intro hpc
      rw [hpc, processSlide_mergeLog, processSlide_grid]
      refine ⟨?_, fun rec hrec => Or.inl hrec⟩
      intro p t hpt hm hp
      obtain ⟨hw, hcell⟩ := cellContent_some hpt
      rw [setCell_cells] at hcell
      by_cases hpf : p = (findFarthestPosition acc.grid c (getVector d)).1
      · rw [if_pos hpf] at hcell
        cases hcell
        have : (updatePosition tile
            (findFarthestPosition acc.grid c (getVector d)).1).mergedFrom
              = tile.mergedFrom := rfl
        rw [this, htile_unmarked] at hm
        cases hm
      · rw [if_neg hpf, setCell_cells] at hcell
        by_cases hpt' : p = (⟨tile.x, tile.y⟩ : Pos)
        · rw [if_pos hpt'] at hcell; cases hcell
        · rw [if_neg hpt'] at hcell
          exact hinv p t (by rw [cellContent, if_pos hw]; exact hcell) hm
            (List.mem_cons_of_mem _ hp)
    rcases h2 : cellContent acc.grid
        (findFarthestPosition acc.grid c (getVector d)).2 with _ | next
    · exact hslide (by rw [processCell, h1]; simp only [h2])
    · by_cases h3 : (next.value == tile.value && next.mergedFrom.isNone) = true
      · have hpc : processCell (getVector d) acc c
            = processMerge acc c (findFarthestPosition acc.grid c (getVector d)).2
                tile next := by
          rw [processCell, h1]; simp only [h2, h3, if_true]
        have hnext_unmarked : next.mergedFrom.isSome = false := by
          rw [Bool.and_eq_true] at h3
          rw [Option.isNone_iff_eq_none] at h3
          rw [h3.2]
          rfl
        set n := (findFarthestPosition acc.grid c (getVector d)).2 with hn
        have hnrest : n ∉ rest := by
          intro hmem
          have := hpair n hmem
          rw [findFarthest_next_beyond acc.grid d c] at this
          cases this
        rw [hpc, processMerge_mergeLog, processMerge_grid, removeTile, insertTile]
        constructor
        · intro p t hpt hm hp
          obtain ⟨hw, hcell⟩ := cellContent_some hpt
          rw [setCell_cells] at hcell
          by_cases hptile : p = (⟨tile.x, tile.y⟩ : Pos)
          · rw [if_pos hptile] at hcell; cases hcell
          · rw [if_neg hptile, setCell_cells] at hcell
            by_cases hpn : p = (⟨(mergedTile n tile next).x, (mergedTile n tile next).y⟩ : Pos)
            · have hpn' : p = n := hpn
              exact hnrest (hpn' ▸ hp)
            · rw [if_neg hpn] at hcell
              exact hinv p t (by rw [cellContent, if_pos hw]; exact hcell) hm
                (List.mem_cons_of_mem _ hp)
        · intro rec hrec
          rcases List.mem_append.mp hrec with hold | hnew
          · exact Or.inl hold
          · right
            rw [List.mem_singleton] at hnew
            subst hnew
            exact ⟨htile_unmarked, hnext_unmarked⟩
      · exact hslide
          (by rw [processCell, h1]; simp only [h2, h3, if_false, Bool.false_eq_true])

theorem foldl_marked (d : Nat) (cells : List Pos) :
    ∀ acc : MoveAcc,
      List.Pairwise (fun a b => isBeyond (getVector d) a b = false) cells →
      noMarkedPending acc.grid cells →
      ∀ rec ∈ (cells.foldl (processCell (getVector d)) acc).mergeLog,
        rec ∈ acc.mergeLog ∨
          (rec.moverHadMerged = false ∧ rec.targetHadMerged = false) := by
  induction cells with
  | nil => intro acc _ _ rec hrec; exact Or.inl hrec
  | cons c cs ih =>
    intro acc hpair hinv rec hrec
    rw [List.pairwise_cons] at hpair
    obtain ⟨hstep_inv, hstep_log⟩ := processCell_marked d acc c cs hpair.1 hinv
    rw [List.foldl_cons] at hrec
    rcases ih _ hpair.2 hstep_inv rec hrec with h | h
    · exact hstep_log rec h
    · exact Or.inr h

/-- During one traversal, no merge consumes a tile that was itself produced
by a merge this move: both the moving source and the target source of every
logged merge carried no merge-source pair. -/
theorem runTraversal_no_remerge (g : Grid) (s : Nat) (w : Bool) (d : Nat) :
    ∀ rec ∈ (runTraversal (prepareTiles g) s w d).mergeLog,
      rec.moverHadMerged = false ∧ rec.targetHadMerged = false := by
  intro rec hrec
  have hrt : runTraversal (prepareTiles g) s w d
      = (traversalCells (getVector d)).foldl (processCell (getVector d))
          { grid := prepareTiles g, score := s, won := w, moved := false,
            maxMergeValue := 0, events := [], mergeLog := [] } := rfl
  rw [hrt] at hrec
  rcases foldl_marked d (traversalCells (getVector d)) _ (traversal_pairwise d)
      (prepareTiles_noMarked g _) rec hrec with h | h
  · cases h
  · exact h

end Game2048

namespace Game2048

/-! ### A traversal that moved nothing changed nothing -/

theorem processCell_noMove_all (d : Nat) (acc : MoveAcc) (c : Pos)
    (hc : gridConsistent acc.grid)
    (h : (processCell (getVector d) acc c).moved = false) :
    acc.moved = false ∧
    (processCell (getVector d) acc c).events = acc.events ∧
    (processCell (getVector d) acc c).mergeLog = acc.mergeLog ∧
    (processCell (getVector d) acc c).score = acc.score ∧
    (processCell (getVector d) acc c).won = acc.won ∧
    (processCell (getVector d) acc c).maxMergeValue = acc.maxMergeValue ∧
    (∀ p, (cellContent (processCell (getVector d) acc c).grid p).map Tile.value
        = (cellContent acc.grid p).map Tile.value) ∧
    (∀ p, ((processCell (getVector d) acc c).grid.cells p).isSome
        = (acc.grid.cells p).isSome) := by
  rcases h1 : cellContent acc.grid c with _ | tile
  · have hpc : processCell (getVector d) acc c = acc := by simp [processCell, h1]
    rw [hpc] at h ⊢
    exact ⟨h, rfl, rfl, rfl, rfl, rfl, fun p => rfl, fun p => rfl⟩
  · have hpos : (⟨tile.x, tile.y⟩ : Pos) = c := tile_pos_eq hc h1
    obtain ⟨hw, hcc⟩ := cellContent_some h1
    have hslide : ∀ _hpc : processCell (getVector d) acc c
        = processSlide acc c (findFarthestPosition acc.grid c (getVector d)).1 tile,
        acc.moved = false ∧
        (processCell (getVector d) acc c).events = acc.events ∧
        (processCell (getVector d) acc c).mergeLog = acc.mergeLog ∧
        (processCell (getVector d) acc c).score = acc.score ∧
        (processCell (getVector d) acc c).won = acc.won ∧
        (processCell (getVector d) acc c).maxMergeValue = acc.maxMergeValue ∧
        (∀ p, (cellContent (processCell (getVector d) acc c).grid p).map Tile.value
            = (cellContent acc.grid p).map Tile.value) ∧
        (∀ p, ((processCell (getVector d) acc c).grid.cells p).isSome
            = (acc.grid.cells p).isSome) := by
      intro hpc
      rw [hpc, processSlide_moved] at h
      set f1 := (findFarthestPosition acc.grid c (getVector d)).1 with hf1
      by_cases hpe : positionsEqual c ⟨f1.x, f1.y⟩ = true
      · rw [if_pos hpe] at h
        rw [positionsEqual_iff] at hpe
        have hfc : f1 = c := hpe.symm
        refine ⟨h, by rw [hpc, processSlide_events],
          by rw [hpc, processSlide_mergeLog], by rw [hpc, processSlide_score],
          by rw [hpc, processSlide_won], by rw [hpc, processSlide_maxMergeValue],
          ?_, ?_⟩
        · intro p
          rw [hpc, processSlide_grid, hpos, hfc]
          rw [cellContent, cellContent]
          by_cases hwp : withinBounds p = true
          · rw [if_pos hwp, if_pos hwp, setCell_cells, setCell_cells]
            by_cases hpc' : p = c
            · rw [if_pos hpc', hpc', hcc]
              rfl
            · rw [if_neg hpc', if_neg hpc']
          · rw [if_neg hwp, if_neg hwp]
        · intro p
          rw [hpc, processSlide_grid, hpos, hfc, setCell_cells, setCell_cells]
          by_cases hpc' : p = c
          · rw [if_pos hpc', hpc', hcc]
            rfl
          · rw [if_neg hpc', if_neg hpc']
      · rw [if_neg hpe] at h
        cases h
    rcases h2 : cellContent acc.grid
        (findFarthestPosition acc.grid c (getVector d)).2 with _ | next
    · exact hslide (by rw [processCell, h1]; simp only [h2])
    · by_cases h3 : (next.value == tile.value && next.mergedFrom.isNone) = true
      · exfalso
        have hpc : processCell (getVector d) acc c
            = processMerge acc c (findFarthestPosition acc.grid c (getVector d)).2
                tile next := by
          rw [processCell, h1]; simp only [h2, h3, if_true]
        rw [hpc, processMerge_moved] at h
        have hne : (findFarthestPosition acc.grid c (getVector d)).2 ≠ c :=
          isBeyond_ne (findFarthest_next_beyond acc.grid d c)
        have hpe : positionsEqual c ⟨(findFarthestPosition acc.grid c (getVector d)).2.x,
            (findFarthestPosition acc.grid c (getVector d)).2.y⟩ = false := by
          rw [← Bool.not_eq_true]
          intro hcontra
          rw [positionsEqual_iff] at hcontra
          exact hne hcontra.symm
        rw [hpe] at h
        simp at h
      · exact hslide
          (by rw [processCell, h1]; simp only [h2, h3, if_false, Bool.false_eq_true])

theorem foldl_noMove_all (d : Nat) (cells : List Pos) :
    ∀ acc : MoveAcc, gridConsistent acc.grid →
      (cells.foldl (processCell (getVector d)) acc).moved = false →
      acc.moved = false ∧
      (cells.foldl (processCell (getVector d)) acc).events = acc.events ∧
      (cells.foldl (processCell (getVector d)) acc).mergeLog = acc.mergeLog ∧
      (cells.foldl (processCell (getVector d)) acc).score = acc.score ∧
      (cells.foldl (processCell (getVector d)) acc).won = acc.won ∧
      (cells.foldl (processCell (getVector d)) acc).maxMergeValue = acc.maxMergeValue ∧
      (∀ p, (cellContent (cells.foldl (processCell (getVector d)) acc).grid p).map Tile.value
          = (cellContent acc.grid p).map Tile.value) ∧
      (∀ p, ((cells.foldl (processCell (getVector d)) acc).grid.cells p).isSome
          = (acc.grid.cells p).isSome) := by
  induction cells with
  | nil =>
    intro acc _ h
    exact ⟨h, rfl, rfl, rfl, rfl, rfl, fun p => rfl, fun p => rfl⟩
  | cons c cs ih =>
    intro acc hc h
    rw [List.foldl_cons] at h ⊢
    have hstep_moved : (processCell (getVector d) acc c).moved = false := by
      by_contra hm
      rw [Bool.not_eq_false] at hm
      rw [foldl_moved_mono (getVector d) cs _ hm] at h
      cases h
    obtain ⟨ha, hev, hlg, hsc, hwn, hmm, hval, hsome⟩ :=
      processCell_noMove_all d acc c hc hstep_moved
    obtain ⟨_, hev2, hlg2, hsc2, hwn2, hmm2, hval2, hsome2⟩ :=
      ih _ (processCell_consistent _ acc c hc) h
    exact ⟨ha, by rw [hev2, hev], by rw [hlg2, hlg], by rw [hsc2, hsc],
      by rw [hwn2, hwn], by rw [hmm2, hmm],
      fun p => by rw [hval2 p, hval p], fun p => by rw [hsome2 p, hsome p]⟩

theorem prepareTiles_cellContent_value (g : Grid) (p : Pos) :
    (cellContent (prepareTiles g) p).map Tile.value = (cellContent g p).map Tile.value := by
  rw [cellContent, cellContent]
  by_cases hw : withinBounds p = true
  · rw [if_pos hw, if_pos hw]
    simp only [prepareTiles, hw, if_pos]
    rcases g.cells p with _ | t <;> rfl
  · rw [if_neg hw, if_neg hw]

theorem runTraversal_noMove (g : Grid) (s : Nat) (w : Bool) (d : Nat)
    (hc : gridConsistent g)
    (h : (runTraversal (prepareTiles g) s w d).moved = false) :
    (runTraversal (prepareTiles g) s w d).events = [] ∧
    (runTraversal (prepareTiles g) s w d).mergeLog = [] ∧
    (runTraversal (prepareTiles g) s w d).score = s ∧
    (runTraversal (prepareTiles g) s w d).won = w ∧
    (∀ p, (cellContent (runTraversal (prepareTiles g) s w d).grid p).map Tile.value
        = (cellContent g p).map Tile.value) ∧
    tileCount (runTraversal (prepareTiles g) s w d).grid = tileCount g := by
  have hrt : runTraversal (prepareTiles g) s w d
      = (traversalCells (getVector d)).foldl (processCell (getVector d))
          { grid := prepareTiles g, score := s, won := w, moved := false,
            maxMergeValue := 0, events := [], mergeLog := [] } := rfl
  obtain ⟨_, hev, hlg, hsc, hwn, _, hval, hsome⟩ :=
    foldl_noMove_all d (traversalCells (getVector d))
      { grid := prepareTiles g, score := s, won := w, moved := false,
        maxMergeValue := 0, events := [], mergeLog := [] }
      (prepareTiles_consistent hc) (by rw [← hrt]; exact h)
  rw [← hrt] at hev hlg hsc hwn hval hsome
  refine ⟨hev, hlg, hsc, hwn, ?_, ?_⟩
  · intro p
    rw [hval p]
    exact prepareTiles_cellContent_value g p
  · rw [tileCount, tileCount]
    refine List.countP_congr (fun p _ => ?_)
    show ((runTraversal (prepareTiles g) s w d).grid.cells p).isSome = true
      ↔ (g.cells p).isSome = true
    rw [hsome p, prepareTiles_cells_isSome]

end Game2048

namespace Game2048

/-! ### Unfolding `move` in its three paths -/

theorem moveFn_terminated (m : Manager) (d r : Nat) (two : Bool)
    (h : isGameTerminated m = true) : moveFn m d r two = (m, []) := by
  rw [moveFn, if_pos h]

theorem moveFn_notMoved_proj (m : Manager) (d r : Nat) (two : Bool)
    (hterm : isGameTerminated m = false)
    (hmv : (runTraversal (prepareTiles m.grid) m.score m.won d).moved = false) :
    (moveFn m d r two).1.grid = (runTraversal (prepareTiles m.grid) m.score m.won d).grid ∧
    (moveFn m d r two).1.score = (runTraversal (prepareTiles m.grid) m.score m.won d).score ∧
    (moveFn m d r two).1.won = (runTraversal (prepareTiles m.grid) m.score m.won d).won ∧
    (moveFn m d r two).1.over = m.over ∧
    (moveFn m d r two).1.keepPlaying = m.keepPlaying ∧
    (moveFn m d r two).1.storedState = m.storedState ∧
    (moveFn m d r two).1.bestScore = m.bestScore ∧
    (moveFn m d r two).2 = (runTraversal (prepareTiles m.grid) m.score m.won d).events := by
  have hne : ¬(isGameTerminated m = true) := by rw [hterm]; exact Bool.false_ne_true
  have hne2 : ¬((runTraversal (prepareTiles m.grid) m.score m.won d).moved = true) := by
    rw [hmv]; exact Bool.false_ne_true
  simp only [moveFn]
  rw [if_neg hne, if_neg hne2]
  exact ⟨rfl, rfl, rfl, rfl, rfl, rfl, rfl, rfl⟩

theorem moveFn_moved_proj (m : Manager) (d r : Nat) (two : Bool)
    (hterm : isGameTerminated m = false)
    (hmv : (runTraversal (prepareTiles m.grid) m.score m.won d).moved = true) :
    (moveFn m d r two).1.grid
        = addRandomTile (runTraversal (prepareTiles m.grid) m.score m.won d).grid r two ∧
    (moveFn m d r two).1.score = (runTraversal (prepareTiles m.grid) m.score m.won d).score ∧
    (moveFn m d r two).1.won = (runTraversal (prepareTiles m.grid) m.score m.won d).won ∧
    (moveFn m d r two).1.over
        = !movesAvailable
            (addRandomTile (runTraversal (prepareTiles m.grid) m.score m.won d).grid r two) ∧
    (moveFn m d r two).2
        = (runTraversal (prepareTiles m.grid) m.score m.won d).events
          ++ (if (moveFn m d r two).1.over then [Event.over] else [])
          ++ [Event.move d]
          ++ (if 0 < (runTraversal (prepareTiles m.grid) m.score m.won d).maxMergeValue
              then [Event.merge
                      (runTraversal (prepareTiles m.grid) m.score m.won d).maxMergeValue]
              else [])
          ++ [Event.progression
                (getTileSum (moveFn m d r two).1.grid).1
                (getTileSum (moveFn m d r two).1.grid).2
                (moveFn m d r two).1.score] := by
  have hne : ¬(isGameTerminated m = true) := by rw [hterm]; exact Bool.false_ne_true
  simp only [moveFn]
  rw [if_neg hne, if_pos hmv]
  exact ⟨rfl, rfl, rfl, rfl, rfl⟩

end Game2048

namespace Game2048

/-! ### Concrete boards used as test fixtures -/

/-- Build a grid from a list of `(x, y, value)` tiles. -/
def mkGrid (ts : List (Int × Int × Nat)) : Grid :=
  ⟨fun p => (ts.find? (fun t => t.1 == p.x && t.2.1 == p.y)).map
      (fun t => ⟨t.1, t.2.1, t.2.2, none, none⟩)⟩

/-- A fresh manager state holding the given tiles. -/
def mkMgr (ts : List (Int × Int × Nat)) : Manager :=
  { grid := mkGrid ts, score := 0, over := false, won := false,
    keepPlaying := false, storedState := none, bestScore := 0 }

/-- Board with two 32 tiles in the top row. -/
def mgrTwo32 : Manager := mkMgr [(0, 0, 32), (1, 0, 32)]

/-- Board with the row `[_, 2, 2, 4]` of the spec example. -/
def mgrRow224 : Manager := mkMgr [(1, 0, 2), (2, 0, 2), (3, 0, 4)]

/-- Board with two 2 tiles in the top row. -/
def mgrTwo2 : Manager := mkMgr [(0, 0, 2), (1, 0, 2)]

/-- Board already packed against the left wall with unequal tiles. -/
def mgrPackedLeft : Manager := mkMgr [(0, 0, 2), (1, 0, 4)]

/-- An already-won game in keep-playing mode with two 1024 tiles. -/
def mgrWonKeep : Manager :=
  { grid := mkGrid [(0, 0, 1024), (1, 0, 1024)], score := 0, over := false,
    won := true, keepPlaying := true, storedState := none, bestScore := 0 }

/-- An already-won game without keep-playing. -/
def mgrWonStop : Manager :=
  { grid := mkGrid [(0, 0, 1024), (1, 0, 1024)], score := 0, over := false,
    won := true, keepPlaying := false, storedState := none, bestScore := 0 }

/-! ### Claim theorems for the game engine -/

/-- C9: every merge performed during a move joins two source tiles of equal
value into a tile of exactly their combined value (double each source), and
the score of the move grows by exactly the sum of the merged values, each
merge counted independently. -/
theorem c9_merge_values_and_score (m : Manager) (d r : Nat) (two : Bool)
    (hterm : isGameTerminated m = false) :
    (∀ rec ∈ (runTraversal (prepareTiles m.grid) m.score m.won d).mergeLog,
      rec.tileValue = rec.nextValue ∧
      rec.mergedValue = rec.tileValue + rec.nextValue) ∧
    (moveFn m d r two).1.score
      = m.score + (((runTraversal (prepareTiles m.grid) m.score m.won d).mergeLog.map
          MergeRec.mergedValue).sum) := by
  obtain ⟨hs, _, _, _, hrc, _⟩ := runTraversal_spec (prepareTiles m.grid) m.score m.won d
  refine ⟨fun rec hrec => ⟨(hrc rec hrec).1, (hrc rec hrec).2.1⟩, ?_⟩
  by_cases hmv : (runTraversal (prepareTiles m.grid) m.score m.won d).moved = true
  · obtain ⟨_, hsc, _, _, _⟩ := moveFn_moved_proj m d r two hterm hmv
    rw [hsc, hs]
  · rw [Bool.not_eq_true] at hmv
    obtain ⟨_, hsc, _⟩ := moveFn_notMoved_proj m d r two hterm hmv
    rw [hsc, hs]

/-- C9 witness: on the board with two 2 tiles, a left move merges once and
the score grows by exactly the merged value. -/
theorem c9_witness :
    ((∀ rec ∈ (runTraversal (prepareTiles mgrTwo2.grid) mgrTwo2.score mgrTwo2.won 3).mergeLog,
      rec.tileValue = rec.nextValue ∧
      rec.mergedValue = rec.tileValue + rec.nextValue) ∧
    (moveFn mgrTwo2 3 0 true).1.score
      = mgrTwo2.score
        + (((runTraversal (prepareTiles mgrTwo2.grid) mgrTwo2.score mgrTwo2.won 3).mergeLog.map
          MergeRec.mergedValue).sum)) ∧
    (moveFn mgrTwo2 3 0 true).1.score = 4 :=
  ⟨c9_merge_values_and_score mgrTwo2 3 0 true (by decide), by decide⟩

/-- C6: no tile produced by a merge participates in a second merge within
the same move: every merge of the traversal consumes two tiles neither of
which carried a merge-source pair, and the spec example row `[2,2,4]`
moved toward the 4 yields `[_,4,4]` (one merge of value 4), not `[8]`. -/
theorem c6_no_double_merge :
    (∀ (g : Grid) (s : Nat) (w : Bool) (d : Nat),
      ∀ rec ∈ (runTraversal (prepareTiles g) s w d).mergeLog,
        rec.moverHadMerged = false ∧ rec.targetHadMerged = false) ∧
    gridValues (moveFn mgrRow224 1 0 true).1.grid
      = gridValues (mkGrid [(0, 0, 2), (2, 0, 4), (3, 0, 4)]) ∧
    (runTraversal (prepareTiles mgrRow224.grid) mgrRow224.score mgrRow224.won 1).mergeLog.map
        MergeRec.mergedValue = [4] :=
  ⟨fun g s w d => runTraversal_no_remerge g s w d, by decide, by decide⟩

/-- C6 witness: the single merge of the example run had both source tiles
unmarked. -/
theorem c6_witness :
    (⟨⟨2, 0⟩, 2, 2, 4, false, false⟩ : MergeRec).moverHadMerged = false ∧
    (⟨⟨2, 0⟩, 2, 2, 4, false, false⟩ : MergeRec).targetHadMerged = false :=
  c6_no_double_merge.1 mgrRow224.grid 0 false 1 ⟨⟨2, 0⟩, 2, 2, 4, false, false⟩ (by decide)

/-- C7: a move in which no tile changed position (the game is terminated, or
the traversal set no moved flag) leaves the score, the board contents, the
persisted snapshot and the best score unchanged, spawns no tile, and emits
no events. -/
theorem c7_noop_move (m : Manager) (d r : Nat) (two : Bool)
    (hc : gridConsistent m.grid)
    (hnm : isGameTerminated m = true ∨
      (runTraversal (prepareTiles m.grid) m.score m.won d).moved = false) :
    (moveFn m d r two).2 = [] ∧
    (moveFn m d r two).1.score = m.score ∧
    gridValues (moveFn m d r two).1.grid = gridValues m.grid ∧
    tileCount (moveFn m d r two).1.grid = tileCount m.grid ∧
    (moveFn m d r two).1.storedState = m.storedState ∧
    (moveFn m d r two).1.bestScore = m.bestScore ∧
    (moveFn m d r two).1.over = m.over ∧
    (moveFn m d r two).1.won = m.won ∧
    (moveFn m d r two).1.keepPlaying = m.keepPlaying := by
  by_cases hterm : isGameTerminated m = true
  · rw [moveFn_terminated m d r two hterm]
    exact ⟨rfl, rfl, rfl, rfl, rfl, rfl, rfl, rfl, rfl⟩
  · rw [Bool.not_eq_true] at hterm
    rcases hnm with h | hmv
    · rw [h] at hterm; cases hterm
    · obtain ⟨hgr, hsc, hwn, hov, hkp, hst, hbs, hev⟩ :=
        moveFn_notMoved_proj m d r two hterm hmv
      obtain ⟨hev0, _, hsc0, hwn0, hval, hcnt⟩ :=
        runTraversal_noMove m.grid m.score m.won d hc hmv
      refine ⟨by rw [hev, hev0], by rw [hsc, hsc0], ?_, by rw [hgr, hcnt],
        hst, hbs, hov, by rw [hwn, hwn0], hkp⟩
      rw [hgr, gridValues, gridValues]
      exact List.map_congr_left (fun p _ => hval p)

/-- C7 witness: on a board already packed against the left wall, a left
move is a no-op. -/
theorem c7_witness :
    (moveFn mgrPackedLeft 3 0 true).2 = [] ∧
    (moveFn mgrPackedLeft 3 0 true).1.score = mgrPackedLeft.score ∧
    gridValues (moveFn mgrPackedLeft 3 0 true).1.grid = gridValues mgrPackedLeft.grid ∧
    tileCount (moveFn mgrPackedLeft 3 0 true).1.grid = tileCount mgrPackedLeft.grid ∧
    (moveFn mgrPackedLeft 3 0 true).1.storedState = mgrPackedLeft.storedState ∧
    (moveFn mgrPackedLeft 3 0 true).1.bestScore = mgrPackedLeft.bestScore ∧
    (moveFn mgrPackedLeft 3 0 true).1.over = mgrPackedLeft.over ∧
    (moveFn mgrPackedLeft 3 0 true).1.won = mgrPackedLeft.won ∧
    (moveFn mgrPackedLeft 3 0 true).1.keepPlaying = mgrPackedLeft.keepPlaying :=
  c7_noop_move mgrPackedLeft 3 0 true (by decide) (Or.inr (by decide))

/-- C10: after a move in which some tile changed position, the grid still
has an available cell when the random tile is spawned, so `addRandomTile`
inserts exactly one tile on that path; the silent no-insert branch is not
taken. -/
theorem c10_spawn_after_move (m : Manager) (d r : Nat) (two : Bool)
    (hc : gridConsistent m.grid)
    (hterm : isGameTerminated m = false)
    (hmv : (runTraversal (prepareTiles m.grid) m.score m.won d).moved = true) :
    cellsAvailable (runTraversal (prepareTiles m.grid) m.score m.won d).grid = true ∧
    tileCount (addRandomTile (runTraversal (prepareTiles m.grid) m.score m.won d).grid r two)
      = tileCount (runTraversal (prepareTiles m.grid) m.score m.won d).grid + 1 ∧
    (moveFn m d r two).1.grid
      = addRandomTile (runTraversal (prepareTiles m.grid) m.score m.won d).grid r two := by
  have hcount := runTraversal_moved_count (prepareTiles m.grid) m.score m.won d
    (prepareTiles_consistent hc) hmv
  have hav := availableCells_ne_of_count _ hcount
  refine ⟨?_, addRandomTile_count _ r two hav, (moveFn_moved_proj m d r two hterm hmv).1⟩
  simp [cellsAvailable, List.isEmpty_iff, hav]

/-- C10 witness: a right move on the two-32 board leaves room and spawns
exactly one tile. -/
theorem c10_witness :
    cellsAvailable (runTraversal (prepareTiles mgrTwo32.grid) mgrTwo32.score
        mgrTwo32.won 1).grid = true ∧
    tileCount (addRandomTile (runTraversal (prepareTiles mgrTwo32.grid) mgrTwo32.score
        mgrTwo32.won 1).grid 0 true)
      = tileCount (runTraversal (prepareTiles mgrTwo32.grid) mgrTwo32.score
          mgrTwo32.won 1).grid + 1 ∧
    (moveFn mgrTwo32 1 0 true).1.grid
      = addRandomTile (runTraversal (prepareTiles mgrTwo32.grid) mgrTwo32.score
          mgrTwo32.won 1).grid 0 true :=
  c10_spawn_after_move mgrTwo32 1 0 true (by decide) (by decide) (by decide)

end Game2048

namespace Game2048

/-- C1 counterexample: on the two-32 board a right move moves tiles and
merges a 64, yet the first emitted event is the milestone event, not the
move event — the claimed order (move first, then merge, then milestone)
does not hold. -/
theorem c1_counterexample :
    (moveFn mgrTwo32 1 0 true).2
      = [Event.milestone 64, Event.move 1, Event.merge 64,
         Event.progression 66 64 64] ∧
    ((moveFn mgrTwo32 1 0 true).2).head? = some (Event.milestone 64) := by
  constructor
  · decide
  · decide

/-- C1 (amended): for every move in which a tile changed position, the
engine emits first the milestone events (each merge of value at least 64)
and win events produced during the traversal, in traversal order; then the
game-over event if the game was just lost; then the move event; then the
merge event carrying the highest merge value of the move, if any merge
occurred; then the progression update. -/
theorem c1_event_order (m : Manager) (d r : Nat) (two : Bool)
    (hterm : isGameTerminated m = false)
    (hmv : (runTraversal (prepareTiles m.grid) m.score m.won d).moved = true) :
    ∃ pre,
      (moveFn m d r two).2
        = pre
          ++ (if (moveFn m d r two).1.over then [Event.over] else [])
          ++ [Event.move d]
          ++ (if 0 < (runTraversal (prepareTiles m.grid) m.score m.won d).maxMergeValue
              then [Event.merge
                      ((runTraversal (prepareTiles m.grid) m.score m.won d).maxMergeValue)]
              else [])
          ++ [Event.progression
                (getTileSum (moveFn m d r two).1.grid).1
                (getTileSum (moveFn m d r two).1.grid).2
                (moveFn m d r two).1.score] ∧
      (∀ e ∈ pre, (∃ w, 64 ≤ w ∧ e = Event.milestone w) ∨ e = Event.won) ∧
      (runTraversal (prepareTiles m.grid) m.score m.won d).maxMergeValue
        = (runTraversal (prepareTiles m.grid) m.score m.won d).mergeLog.foldl
            (fun a rec => if rec.mergedValue > a then rec.mergedValue else a) 0 := by
  obtain ⟨_, _, _, _, hev⟩ := moveFn_moved_proj m d r two hterm hmv
  obtain ⟨_, _, hm, hec, _, _⟩ := runTraversal_spec (prepareTiles m.grid) m.score m.won d
  exact ⟨(runTraversal (prepareTiles m.grid) m.score m.won d).events, hev, hec, hm⟩

/-- C1 witness: the amended order instantiated on the two-32 board. -/
theorem c1_witness :
    ∃ pre,
      (moveFn mgrTwo32 1 0 true).2
        = pre
          ++ (if (moveFn mgrTwo32 1 0 true).1.over then [Event.over] else [])
          ++ [Event.move 1]
          ++ (if 0 < (runTraversal (prepareTiles mgrTwo32.grid) mgrTwo32.score
                  mgrTwo32.won 1).maxMergeValue
              then [Event.merge
                      ((runTraversal (prepareTiles mgrTwo32.grid) mgrTwo32.score
                          mgrTwo32.won 1).maxMergeValue)]
              else [])
          ++ [Event.progression
                (getTileSum (moveFn mgrTwo32 1 0 true).1.grid).1
                (getTileSum (moveFn mgrTwo32 1 0 true).1.grid).2
                (moveFn mgrTwo32 1 0 true).1.score] ∧
      (∀ e ∈ pre, (∃ w, 64 ≤ w ∧ e = Event.milestone w) ∨ e = Event.won) ∧
      (runTraversal (prepareTiles mgrTwo32.grid) mgrTwo32.score mgrTwo32.won 1).maxMergeValue
        = (runTraversal (prepareTiles mgrTwo32.grid) mgrTwo32.score
            mgrTwo32.won 1).mergeLog.foldl
            (fun a rec => if rec.mergedValue > a then rec.mergedValue else a) 0 :=
  c1_event_order mgrTwo32 1 0 true (by decide) (by decide)

/-- C3 counterexample: a game already won (keep-playing mode) in which a
later merge produces 2048 again emits another win event. -/
theorem c3_counterexample :
    mgrWonKeep.won = true ∧ Event.won ∈ (moveFn mgrWonKeep 3 0 true).2 := by
  constructor
  · rfl
  · decide

/-- C3 (amended): the won flag is set and a win event is emitted every time
a merge produces exactly 2048, not only the first time; when the game is
already won and keep-playing is not set, the game is terminated so the move
is rejected outright, hence only in keep-playing mode can a later 2048
merge re-emit the win event. -/
theorem c3_win_every_2048 (m : Manager) (d r : Nat) (two : Bool) :
    (m.won = true → m.keepPlaying = false → moveFn m d r two = (m, [])) ∧
    (isGameTerminated m = false →
      ∀ rec ∈ (runTraversal (prepareTiles m.grid) m.score m.won d).mergeLog,
        rec.mergedValue = 2048 →
          (moveFn m d r two).1.won = true ∧ Event.won ∈ (moveFn m d r two).2) := by
  constructor
  · intro hw hk
    refine moveFn_terminated m d r two ?_
    rw [isGameTerminated, hw, hk]
    simp
  · intro hterm rec hrec h48
    obtain ⟨_, hw, _, _, _, hlk⟩ := runTraversal_spec (prepareTiles m.grid) m.score m.won d
    have hwon : (runTraversal (prepareTiles m.grid) m.score m.won d).won = true := by
      rw [hw]
      have : (runTraversal (prepareTiles m.grid) m.score m.won d).mergeLog.any
          (fun rec => rec.mergedValue == 2048) = true := by
        rw [List.any_eq_true]
        exact ⟨rec, hrec, by rw [h48]; rfl⟩
      rw [this, Bool.or_true]
    have hmem : Event.won ∈ (runTraversal (prepareTiles m.grid) m.score m.won d).events :=
      hlk rec hrec h48
    have hmv : (runTraversal (prepareTiles m.grid) m.score m.won d).moved = true := by
      refine runTraversal_moved_of_mergeLog (prepareTiles m.grid) m.score m.won d ?_
      intro hnil
      rw [hnil] at hrec
      cases hrec
    obtain ⟨_, _, hwn, _, hev⟩ := moveFn_moved_proj m d r two hterm hmv
    refine ⟨by rw [hwn, hwon], ?_⟩
    rw [hev]
    simp only [List.mem_append]
    exact Or.inl (Or.inl (Or.inl (Or.inl hmem)))

/-- C3 witness: a won game without keep-playing rejects the move; the
keep-playing board with two 1024 tiles re-emits the win event on its 2048
merge. -/
theorem c3_witness :
    moveFn mgrWonStop 3 0 true = (mgrWonStop, []) ∧
    ((moveFn mgrWonKeep 3 0 true).1.won = true ∧
      Event.won ∈ (moveFn mgrWonKeep 3 0 true).2) :=
  ⟨(c3_win_every_2048 mgrWonStop 3 0 true).1 rfl rfl,
   (c3_win_every_2048 mgrWonKeep 3 0 true).2 (by decide)
     ⟨⟨0, 0⟩, 1024, 1024, 2048, false, false⟩ (by decide) rfl⟩

end Game2048

namespace EventBusM

/-!
Shallow embedding of `src/js/event_bus.js` for a single topic.  A
subscriber is represented by its identity (`id`), the effect its callback
has on the bus when invoked (`act`), and whether it was registered through
`once` (in which case the stored callback is the wrapper of lines 66-69).
-/

/-- The possible effects of a callback body on the bus: do nothing, throw,
unsubscribe itself, unsubscribe the handler with a given id (via the `off`
of lines 33-40), or subscribe a new plain handler (via `on`, lines 15-26,
which pushes onto the same array). -/
inductive HAct where
  | pure
  | throws
  | offSelf
  | offId (i : Nat)
  | onNew (i : Nat)
deriving DecidableEq, Repr

/-- One subscription in a topic's callback array. -/
structure Handler where
  id : Nat
  act : HAct
  once : Bool
deriving DecidableEq, Repr

/-- `EventBus.prototype.off` (lines 33-40): `indexOf` finds the first
matching callback and `splice` removes it; absent callbacks are ignored. -/
def removeFirst : List Handler → Nat → List Handler
  | [], _ => []
  | h :: t, i => if h.id = i then t else h :: removeFirst t i

/-- The effect of one callback body: the new subscriber list and whether
the callback threw. -/
def applyAct (s : List Handler) (self : Nat) : HAct → List Handler × Bool
  | .pure => (s, false)
  | .throws => (s, true)
  | .offSelf => (removeFirst s self, false)
  | .offId i => (removeFirst s i, false)
  | .onNew i => (s ++ [⟨i, .pure, false⟩], false)

/-- Calling one subscriber during `emit`.  A `once` subscription stores the
wrapper of lines 66-69: it calls the callback and only then unsubscribes
itself, so a throwing callback is never unsubscribed; the try/catch of
`emit` (lines 50-56) catches the throw per subscriber, so iteration
continues either way. -/
def invoke (s : List Handler) (h : Handler) : List Handler :=
  let r := applyAct s h.id h.act
  if h.once && !r.2 then removeFirst r.1 h.id else r.1

/-- The live-array iteration of `emit` (lines 47-57):
`Array.prototype.forEach` visits indices `0 .. len-1` where `len` is the
array length when the call starts, reading the CURRENT array at each index
and skipping indices past its current end.  Returns the final subscriber
list and the ids invoked, in order. -/
def emitIdx : List Nat → List Handler → List Nat → List Handler × List Nat
  | [], s, log => (s, log)
  | k :: ks, s, log =>
    match s[k]? with
    | none => emitIdx ks s log
    | some h => emitIdx ks (invoke s h) (log ++ [h.id])

/-- `EventBus.prototype.emit` on a topic whose subscriber array is `hs`. -/
def emitRun (hs : List Handler) : List Handler × List Nat :=
  emitIdx (List.range hs.length) hs []

/-- The id found at an index of the starting array. -/
def idAt (hs : List Handler) (k : Nat) : Nat :=
  match hs[k]? with
  | some h => h.id
  | none => 0

theorem removeFirst_sublist (l : List Handler) (i : Nat) :
    (removeFirst l i).Sublist l := by
  induction l with
  | nil => exact List.Sublist.refl []
  | cons h t ih =>
    rw [removeFirst]
    split
    · exact List.sublist_cons_self h t
    · exact List.Sublist.cons₂ h ih

theorem invoke_sublist (s : List Handler) (h : Handler)
    (hact : ∀ i, h.act ≠ HAct.onNew i) : (invoke s h).Sublist s := by
  rw [invoke]
  rcases ha : h.act with _ | _ | _ | i | i
  · show (if h.once && !false then removeFirst s h.id else s).Sublist s
    split
    · exact removeFirst_sublist s h.id
    · exact List.Sublist.refl s
  · show (if h.once && !true then removeFirst s h.id else s).Sublist s
    simp only [Bool.not_true, Bool.and_false, Bool.false_eq_true, if_false]
    exact List.Sublist.refl s
  · show (if h.once && !false then removeFirst (removeFirst s h.id) h.id
        else removeFirst s h.id).Sublist s
    split
    · exact (removeFirst_sublist _ _).trans (removeFirst_sublist s h.id)
    · exact removeFirst_sublist s h.id
  · show (if h.once && !false then removeFirst (removeFirst s i) h.id
        else removeFirst s i).Sublist s
    split
    · exact (removeFirst_sublist _ _).trans (removeFirst_sublist s i)
    · exact removeFirst_sublist s i
  · exact absurd ha (hact i)

theorem not_mem_removeFirst (l : List Handler) (i : Nat)
    (hnd : (l.map Handler.id).Nodup) : i ∉ (removeFirst l i).map Handler.id := by
  induction l with
  | nil => intro h; cases h
  | cons h t ih =>
    rw [removeFirst]
    rw [List.map_cons, List.nodup_cons] at hnd
    split
    · next heq =>
      rw [← heq]
      exact hnd.1
    · next hne =>
      rw [List.map_cons, List.mem_cons]
      rintro (h1 | h2)
      · exact hne h1.symm
      · exact ih hnd.2 h2

theorem eq_of_mem_nodup_ids (hs : List Handler) (hnd : (hs.map Handler.id).Nodup)
    (a b : Handler) (ha : a ∈ hs) (hb : b ∈ hs) (hid : a.id = b.id) : a = b := by
  induction hs with
  | nil => cases ha
  | cons x t ih =>
    rw [List.map_cons, List.nodup_cons] at hnd
    rcases List.mem_cons.mp ha with rfl | hat
    · rcases List.mem_cons.mp hb with rfl | hbt
      · rfl
      · exact absurd (hid ▸ List.mem_map_of_mem Handler.id hbt) hnd.1
    · rcases List.mem_cons.mp hb with rfl | hbt
      · exact absurd (hid ▸ List.mem_map_of_mem Handler.id hat) hnd.1
      · exact ih hnd.2 hat hbt

end EventBusM

namespace EventBusM

theorem emitIdx_no_removal (hs : List Handler)
    (hnr : ∀ h ∈ hs, h.once = false ∧ h.act ≠ HAct.offSelf ∧ ∀ i, h.act ≠ HAct.offId i) :
    ∀ (ks : List Nat) (extra : List Handler) (log : List Nat),
      (∀ k ∈ ks, k < hs.length) →
      ∃ extra2,
        emitIdx ks (hs ++ extra) log = (hs ++ extra2, log ++ ks.map (idAt hs)) := by
  intro ks
  induction ks with
  | nil =>
    intro extra log _
    exact ⟨extra, by rw [emitIdx, List.map_nil, List.append_nil]⟩
  | cons k ks ih =>
    intro extra log hks
    have hklt : k < hs.length := hks k (List.mem_cons_self k ks)
    have hget : (hs ++ extra)[k]? = hs[k]? := List.getElem?_append_left hklt
    have hsome : hs[k]? = some hs[k] := List.getElem?_eq_getElem hklt
    rw [emitIdx, hget, hsome]
    set h := hs[k] with hh
    have hmem : h ∈ hs := List.getElem_mem hklt
    obtain ⟨honce, hoffs, hoffi⟩ := hnr h hmem
    have hidat : idAt hs k = h.id := by rw [idAt, hsome]
    have hinv : ∃ extra1, invoke (hs ++ extra) h = hs ++ extra1 := by
      rw [invoke, honce]
      simp only [Bool.false_and, Bool.false_eq_true, if_false]
      rcases ha : h.act with _ | _ | _ | i | i
      · exact ⟨extra, rfl⟩
      · exact ⟨extra, rfl⟩
      · exact absurd ha hoffs
      · exact absurd ha (hoffi i)
      · refine ⟨extra ++ [⟨i, HAct.pure, false⟩], ?_⟩
        show hs ++ extra ++ [⟨i, HAct.pure, false⟩]
          = hs ++ (extra ++ [⟨i, HAct.pure, false⟩])
        exact List.append_assoc hs extra _
    obtain ⟨extra1, hinv1⟩ := hinv
    show ∃ extra2, emitIdx ks (invoke (hs ++ extra) h) (log ++ [h.id])
        = (hs ++ extra2, log ++ (k :: ks).map (idAt hs))
    rw [hinv1]
    obtain ⟨extra2, hrec⟩ := ih extra1 (log ++ [h.id])
      (fun k hk => hks k (List.mem_cons_of_mem _ hk))
    refine ⟨extra2, ?_⟩
    rw [hrec, List.map_cons, hidat, List.append_assoc]
    rfl

theorem map_idAt_range (hs : List Handler) :
    (List.range hs.length).map (idAt hs) = hs.map Handler.id := by
  induction hs with
  | nil => rfl
  | cons h t ih =>
    rw [List.length_cons, List.range_succ_eq_map, List.map_cons, List.map_map,
      List.map_cons]
    congr 1
    · simp [idAt]
    · rw [← ih]
      refine List.map_congr_left (fun k _ => ?_)
      show idAt (h :: t) (k + 1) = idAt t k
      simp [idAt]

theorem emitIdx_once_removed (hs : List Handler)
    (hnd : (hs.map Handler.id).Nodup)
    (hadd : ∀ g ∈ hs, ∀ i, g.act ≠ HAct.onNew i)
    (h : Handler) (hmem : h ∈ hs) (honce : h.once = true) (hthrow : h.act ≠ HAct.throws) :
    ∀ (ks : List Nat) (s : List Handler) (log : List Nat),
      s.Sublist hs →
      (h.id ∈ log → h.id ∉ s.map Handler.id) →
      (h.id ∈ (emitIdx ks s log).2 → h.id ∉ (emitIdx ks s log).1.map Handler.id) := by
  intro ks
  induction ks with
  | nil =>
    intro s log hsub hinvar
    rw [emitIdx]
    exact hinvar
  | cons k ks ih =>
    intro s log hsub hinvar
    rw [emitIdx]
    rcases hget : s[k]? with _ | hd
    · exact ih s log hsub hinvar
    · have hdmem_s : hd ∈ s := List.getElem?_mem hget
      have hdmem : hd ∈ hs := hsub.subset hdmem_s
      have hdadd : ∀ i, hd.act ≠ HAct.onNew i := hadd hd hdmem
      have hsub1 : (invoke s hd).Sublist s := invoke_sublist s hd hdadd
      refine ih (invoke s hd) (log ++ [hd.id]) (hsub1.trans hsub) ?_
      intro hmem_log
      rcases List.mem_append.mp hmem_log with hold | hnew
      · intro hcontra
        exact hinvar hold ((List.Sublist.map Handler.id hsub1).subset hcontra)
      · rw [List.mem_singleton] at hnew
        have hdh : hd = h :=
          eq_of_mem_nodup_ids hs hnd hd h hdmem hmem hnew.symm
        subst hdh
        rw [invoke, honce]
        have hr2 : (applyAct s hd.id hd.act).2 = false := by
          rcases ha : hd.act with _ | _ | _ | i | i
          · rfl
          · exact absurd ha hthrow
          · rfl
          · rfl
          · exact absurd ha (hdadd i)
        rw [hr2]
        simp only [Bool.not_false, Bool.true_and, if_true]
        refine not_mem_removeFirst _ _ ?_
        have : (applyAct s hd.id hd.act).1.Sublist s := by
          rcases ha : hd.act with _ | _ | _ | i | i
          · exact List.Sublist.refl s
          · exact List.Sublist.refl s
          · exact removeFirst_sublist s hd.id
          · exact removeFirst_sublist s i
          · exact absurd ha (hdadd i)
        exact ((this.trans hsub).map Handler.id).nodup hnd

end EventBusM

namespace EventBusM

/-- Subscriber list in which the first handler unsubscribes itself during
the publish. -/
def busSelfOff : List Handler := [⟨0, HAct.offSelf, false⟩, ⟨1, HAct.pure, false⟩]

/-- Subscriber list whose handlers neither unsubscribe nor were registered
through `once`; one throws and one subscribes a new handler mid-publish. -/
def busStable : List Handler :=
  [⟨0, HAct.pure, false⟩, ⟨1, HAct.throws, false⟩, ⟨2, HAct.onNew 9, false⟩]

/-- A once-registered handler that throws on its first invocation, followed
by a plain handler. -/
def busOnceThrow : List Handler := [⟨0, HAct.throws, true⟩, ⟨1, HAct.pure, false⟩]

/-- A once-registered handler that returns normally. -/
def busOncePlain : List Handler := [⟨0, HAct.pure, true⟩]

/-- C2 counterexample: with two subscribers, the first of which
unsubscribes itself during the publish, only the first is invoked: the
second subscriber — present in the snapshot at publish start and still
subscribed afterwards — is skipped, because the splice shifts it under the
live index iteration. -/
theorem c2_counterexample :
    (emitRun busSelfOff).2 = [0] ∧
    (⟨1, HAct.pure, false⟩ : Handler) ∈ busSelfOff ∧
    (⟨1, HAct.pure, false⟩ : Handler) ∈ (emitRun busSelfOff).1 ∧
    (1 : Nat) ∉ (emitRun busSelfOff).2 := by
  refine ⟨?_, ?_, ?_, ?_⟩ <;> decide

/-- Whether a callback effect is an `off` of some id. -/
def isOffId : HAct → Bool
  | .offId _ => true
  | _ => false

/-- Whether a callback effect subscribes a new handler. -/
def isOnNewAct : HAct → Bool
  | .onNew _ => true
  | _ => false

theorem not_offId_of_false {a : HAct} (h : isOffId a = false) :
    ∀ i, a ≠ HAct.offId i := by
  intro i hcontra
  rw [hcontra] at h
  cases h

theorem not_onNew_of_false {a : HAct} (h : isOnNewAct a = false) :
    ∀ i, a ≠ HAct.onNew i := by
  intro i hcontra
  rw [hcontra] at h
  cases h

/-- C2 (amended): publish invokes subscribers synchronously in
subscription order, and the list behaves as a stable snapshot — with
handlers added during the pass not invoked — provided no handler
unsubscribes during the pass (no `once` wrapper, no `off` call from a
handler); a throwing handler is caught and delivery continues.  When a
handler does unsubscribe during the pass, the array shifts under the live
index iteration and the subscriber after the removed position is skipped. -/
theorem c2_publish_snapshot (hs : List Handler)
    (hnr : ∀ h ∈ hs, h.once = false ∧ h.act ≠ HAct.offSelf ∧
      isOffId h.act = false) :
    (emitRun hs).2 = hs.map Handler.id := by
  obtain ⟨extra2, hrun⟩ := emitIdx_no_removal hs
    (fun h hm => ⟨(hnr h hm).1, (hnr h hm).2.1, not_offId_of_false (hnr h hm).2.2⟩)
    (List.range hs.length) [] []
    (fun k hk => List.mem_range.mp hk)
  rw [emitRun]
  rw [List.append_nil] at hrun
  rw [hrun]
  rw [List.nil_append]
  exact map_idAt_range hs

/-- C2 witness: the stable three-subscriber list (one throwing, one adding
a new subscriber) is invoked exactly once each, in order. -/
theorem c2_witness : (emitRun busStable).2 = busStable.map Handler.id :=
  c2_publish_snapshot busStable (by decide)

/-- C5 counterexample: a handler registered through `once` that throws on
its first invocation is not removed — the wrapper unsubscribes only after
the callback returns — so a second publish invokes it again (the throw is
caught per subscriber, so the other handler is still reached both times). -/
theorem c5_counterexample :
    (emitRun busOnceThrow).2 = [0, 1] ∧
    (emitRun busOnceThrow).1 = busOnceThrow ∧
    (emitRun (emitRun busOnceThrow).1).2 = [0, 1] ∧
    (0 : Nat) ∈ (emitRun (emitRun busOnceThrow).1).2 := by
  refine ⟨?_, ?_, ?_, ?_⟩ <;> decide

/-- C5 (amended): a handler registered through `once` that returns
normally from its first invocation is removed by its wrapper and is no
longer subscribed after the publish; a subscriber that throws is caught
per subscriber and delivery continues, but a throwing `once` handler is
not removed and is invoked again on the next publish of the topic. -/
theorem c5_once_removed (hs : List Handler)
    (hnd : (hs.map Handler.id).Nodup)
    (hadd : ∀ g ∈ hs, isOnNewAct g.act = false)
    (h : Handler) (hmem : h ∈ hs) (honce : h.once = true)
    (hthrow : h.act ≠ HAct.throws)
    (hinvoked : h.id ∈ (emitRun hs).2) :
    h.id ∉ ((emitRun hs).1.map Handler.id) := by
  refine emitIdx_once_removed hs hnd
    (fun g hg => not_onNew_of_false (hadd g hg)) h hmem honce hthrow
    (List.range hs.length) hs [] (List.Sublist.refl hs) ?_ hinvoked
  intro hfalse
  cases hfalse

/-- C5 witness: a once-registered handler that returns normally is invoked
on the first publish and absent from the subscriber list afterwards. -/
theorem c5_witness : (0 : Nat) ∉ ((emitRun busOncePlain).1.map Handler.id) :=
  c5_once_removed busOncePlain (by decide) (by decide)
    ⟨0, HAct.pure, true⟩ (by decide) rfl (by decide) (by decide)

end EventBusM

namespace VisualEffectsM

/-!
Model of the particle-capacity logic and the progress curve of
`VisualEffectsManager` (unnamed source part_003).  The spawn sites only
read and change the particle array through its length, so the model
tracks counts.  The progress curve computes with JS double-precision
floats; the model idealises the arithmetic over the reals.
-/

/-- `this.maxParticles = 300` (part_003 line 11). -/
def maxParticles : Nat := 300

/-- `this.baseParticles = 150` (line 12). -/
def baseParticles : Nat := 150

/-- The capacity-guarded spawn pattern shared by `triggerMilestone`
(lines 265-267), `triggerMerge` (line 495), the `triggerGameOver` waves
(lines 421-422) and the main `triggerVictory` waves (lines 337-338):
`availableSlots = maxParticles - particles.length` and
`Math.min(requested, availableSlots)` particles are pushed (with a
negative slot count the loop body never runs, matching truncated
subtraction). -/
def spawnClamped (count requested : Nat) : Nat :=
  count + min requested (maxParticles - count)

/-- The delayed mist/spray wave of `triggerVictory` (lines 368-384): a
600 ms timeout pushes 30 particles with no `availableSlots` check. -/
def victoryMistSpawn (count : Nat) : Nat := count + 30

/-- C4: every capacity-guarded spawn site keeps the particle set at or
below `maxParticles`, but the delayed victory mist/spray wave pushes its
30 particles unconditionally: fired with the particle set already at the
300 maximum it grows the set to 330, exceeding the maximum — the claim
that every spawn request is truncated to remaining capacity fails at that
site. -/
theorem c4_mist_wave_overflow :
    (∀ count requested, count ≤ maxParticles →
      spawnClamped count requested ≤ maxParticles) ∧
    victoryMistSpawn maxParticles = 330 ∧
    maxParticles < victoryMistSpawn maxParticles := by
  refine ⟨?_, rfl, by decide⟩
  intro c r hc
  rw [spawnClamped, maxParticles] at *
  omega

/-- C4 witness: a full particle set stays at the maximum under a guarded
spawn request. -/
theorem c4_witness : spawnClamped 300 50 ≤ maxParticles :=
  c4_mist_wave_overflow.1 300 50 (by decide)

/-- `difficultyConfig.earlyGameCap` (line 43). -/
def earlyGameCap : ℝ := 0.15

/-- `difficultyConfig.midGameCap` (line 44). -/
def midGameCap : ℝ := 0.40

/-- `difficultyConfig.exponentialPower` (line 46). -/
def exponentialPower : ℝ := 2.5

/-- `Math.min(tileSum || 4, 4000)` (line 101): a zero (or missing) sum
defaults to 4. -/
def sumCapped (tileSum : Nat) : Nat :=
  min (if tileSum = 0 then 4 else tileSum) 4000

/-- Lines 105-108: `normalizedSum = sumCapped / 4000` raised to the
configured exponent (`Math.pow`). -/
noncomputable def progressCurve (tileSum : Nat) : ℝ :=
  ((sumCapped tileSum : ℝ) / 4000) ^ exponentialPower

/-- Lines 111-123: the phase caps on the raw curve. -/
noncomputable def progressFactorPre (tileSum : Nat) : ℝ :=
  if sumCapped tileSum < 200 then
    min (progressCurve tileSum) earlyGameCap
  else if sumCapped tileSum < 1000 then
    min (progressCurve tileSum)
      (earlyGameCap + (midGameCap - earlyGameCap)
        * (((sumCapped tileSum : ℝ) - 200) / 800))
  else progressCurve tileSum

/-- Lines 127-129: `tileBoost = (log2(maxTileValue) - 8) * 0.08`. -/
noncomputable def tileBoost (maxTileValue : Nat) : ℝ :=
  (Real.log maxTileValue / Real.log 2 - 8) * 0.08

/-- `setGameProgress` (lines 91-130), as far as it computes
`this.progressFactor`; the subsequent background-color interpolation
(lines 132-177) reads but does not change the factor and is not
modelled. -/
noncomputable def setGameProgress (maxTileValue tileSum : Nat) : ℝ :=
  if 512 ≤ maxTileValue then
    min 1 (progressFactorPre tileSum + tileBoost maxTileValue)
  else progressFactorPre tileSum

theorem sumCapped_le (s : Nat) : sumCapped s ≤ 4000 := min_le_right _ _

theorem sumCapped_mono {s1 s2 : Nat} (h1 : 0 < s1) (h : s1 ≤ s2) :
    sumCapped s1 ≤ sumCapped s2 := by
  rw [sumCapped, sumCapped, if_neg (by omega), if_neg (by omega)]
  exact min_le_min h le_rfl

theorem progressCurve_nonneg (s : Nat) : 0 ≤ progressCurve s :=
  Real.rpow_nonneg (by positivity) _

theorem progressCurve_le_one (s : Nat) : progressCurve s ≤ 1 := by
  refine Real.rpow_le_one (by positivity) ?_ (by norm_num [exponentialPower])
  rw [div_le_one (by norm_num)]
  exact_mod_cast sumCapped_le s

theorem progressCurve_mono {s1 s2 : Nat} (h1 : 0 < s1) (h : s1 ≤ s2) :
    progressCurve s1 ≤ progressCurve s2 := by
  refine Real.rpow_le_rpow (by positivity) ?_ (by norm_num [exponentialPower])
  have := sumCapped_mono h1 h
  have hc : (sumCapped s1 : ℝ) ≤ (sumCapped s2 : ℝ) := by exact_mod_cast this
  linarith

theorem progressFactorPre_nonneg (s : Nat) : 0 ≤ progressFactorPre s := by
  rw [progressFactorPre]
  split_ifs with hb1 hb2
  · exact le_min (progressCurve_nonneg s) (by norm_num [earlyGameCap])
  · refine le_min (progressCurve_nonneg s) ?_
    have h200 : (200 : ℝ) ≤ (sumCapped s : ℝ) := by
      exact_mod_cast Nat.le_of_not_lt hb1
    have hblend : (0 : ℝ) ≤ ((sumCapped s : ℝ) - 200) / 800 :=
      div_nonneg (by linarith) (by norm_num)
    have := mul_nonneg (by norm_num [earlyGameCap, midGameCap] :
      (0 : ℝ) ≤ midGameCap - earlyGameCap) hblend
    rw [earlyGameCap] at *
    linarith
  · exact progressCurve_nonneg s

theorem progressFactorPre_le_one (s : Nat) : progressFactorPre s ≤ 1 := by
  rw [progressFactorPre]
  split_ifs
  · exact le_trans (min_le_left _ _) (progressCurve_le_one s)
  · exact le_trans (min_le_left _ _) (progressCurve_le_one s)
  · exact progressCurve_le_one s

theorem tileBoost_nonneg {mt : Nat} (h : 512 ≤ mt) : 0 ≤ tileBoost mt := by
  rw [tileBoost]
  have h2 : (0 : ℝ) < Real.log 2 := Real.log_pos (by norm_num)
  have h512 : Real.log 512 ≤ Real.log (mt : ℝ) := by
    refine Real.log_le_log (by norm_num) ?_
    exact_mod_cast h
  have hlog512 : Real.log 512 = 9 * Real.log 2 := by
    rw [show (512 : ℝ) = 2 ^ (9 : ℕ) by norm_num, Real.log_pow]
    norm_num
  have h9 : (9 : ℝ) ≤ Real.log (mt : ℝ) / Real.log 2 := by
    rw [le_div_iff₀ h2]
    calc (9 : ℝ) * Real.log 2 = Real.log 512 := hlog512.symm
      _ ≤ Real.log (mt : ℝ) := h512
  have := mul_nonneg (by linarith : (0 : ℝ) ≤ Real.log (mt : ℝ) / Real.log 2 - 8)
    (by norm_num : (0 : ℝ) ≤ (0.08 : ℝ))
  linarith

theorem progressFactorPre_mono {s1 s2 : Nat} (h1 : 0 < s1) (h12 : s1 ≤ s2)
    (hband : (s1 < 200 ∧ s2 < 200) ∨ (200 ≤ s1 ∧ s2 < 1000) ∨ 1000 ≤ s1) :
    progressFactorPre s1 ≤ progressFactorPre s2 := by
  have h2pos : 0 < s2 := lt_of_lt_of_le h1 h12
  rcases hband with ⟨ha, hb⟩ | ⟨ha, hb⟩ | ha
  · have hc1 : sumCapped s1 = s1 := by rw [sumCapped, if_neg (by omega)]; omega
    have hc2 : sumCapped s2 = s2 := by rw [sumCapped, if_neg (by omega)]; omega
    rw [progressFactorPre, progressFactorPre, if_pos (by omega), if_pos (by omega)]
    exact min_le_min (progressCurve_mono h1 h12) le_rfl
  · have hc1 : sumCapped s1 = s1 := by rw [sumCapped, if_neg (by omega)]; omega
    have hc2 : sumCapped s2 = s2 := by rw [sumCapped, if_neg (by omega)]; omega
    rw [progressFactorPre, progressFactorPre,
      if_neg (by omega), if_pos (by omega), if_neg (by omega), if_pos (by omega)]
    refine min_le_min (progressCurve_mono h1 h12) ?_
    have hcast : (sumCapped s1 : ℝ) ≤ (sumCapped s2 : ℝ) := by
      exact_mod_cast sumCapped_mono h1 h12
    have hmul : (0 : ℝ) ≤ midGameCap - earlyGameCap := by
      norm_num [earlyGameCap, midGameCap]
    have hdiv : ((sumCapped s1 : ℝ) - 200) / 800 ≤ ((sumCapped s2 : ℝ) - 200) / 800 := by
      apply div_le_div_of_nonneg_right ?_ (by norm_num)
      linarith
    have := mul_le_mul_of_nonneg_left hdiv hmul
    linarith
  · have hc1 : 1000 ≤ sumCapped s1 := by rw [sumCapped, if_neg (by omega)]; omega
    have hc2 : 1000 ≤ sumCapped s2 := by rw [sumCapped, if_neg (by omega)]; omega
    rw [progressFactorPre, progressFactorPre,
      if_neg (by omega), if_neg (by omega), if_neg (by omega), if_neg (by omega)]
    exact progressCurve_mono h1 h12

/-- C8: the computed progress factor always lies in `[0, 1]`, and for a
fixed max tile it is monotonically non-decreasing in the (positive) tile
sum within each phase band (`tileSum < 200`, `200 ≤ tileSum < 1000`,
`tileSum ≥ 1000`). -/
theorem c8_progress_range_mono :
    (∀ mt s, 0 ≤ setGameProgress mt s ∧ setGameProgress mt s ≤ 1) ∧
    (∀ mt s1 s2, 0 < s1 → s1 ≤ s2 →
      ((s1 < 200 ∧ s2 < 200) ∨ (200 ≤ s1 ∧ s2 < 1000) ∨ 1000 ≤ s1) →
      setGameProgress mt s1 ≤ setGameProgress mt s2) := by
  constructor
  · intro mt s
    rw [setGameProgress]
    split_ifs with hmt
    · exact ⟨le_min (by norm_num)
        (add_nonneg (progressFactorPre_nonneg s) (tileBoost_nonneg hmt)),
        min_le_left _ _⟩
    · exact ⟨progressFactorPre_nonneg s, progressFactorPre_le_one s⟩
  · intro mt s1 s2 h1 h12 hband
    rw [setGameProgress, setGameProgress]
    split_ifs with hmt
    · exact min_le_min le_rfl
        (add_le_add_right (progressFactorPre_mono h1 h12 hband) _)
    · exact progressFactorPre_mono h1 h12 hband

/-- C8 witness: the range at a small board and the monotone step from sum
300 to sum 400 inside the mid band, at max tile 4. -/
theorem c8_witness :
    (0 ≤ setGameProgress 4 20 ∧ setGameProgress 4 20 ≤ 1) ∧
    setGameProgress 4 300 ≤ setGameProgress 4 400 :=
  ⟨c8_progress_range_mono.1 4 20,
   c8_progress_range_mono.2 4 300 400 (by norm_num) (by norm_num)
     (Or.inr (Or.inl (by norm_num)))⟩

end VisualEffectsM
